import Mathlib

/-!
# A verification development for the `autotex` incremental build engine

This file gives a shallow embedding, in Lean, of the core algorithms of the
`autotex` build engine (package source `autotex/__init__.py`): the dependency
graph with its bidirectional edges and duplicate merging, the persistent
state round-trip, the trace-log parser, the rule-table template substitution,
command-node identity, the scheduler's round ordering and round cap, the
layered config merge, and the file-digest contract.  Each component is
translated from the Python source; theorems then settle the specified
properties of these definitions.

Conventions used throughout:
* Python byte strings are modelled as `List Nat`.
* Python's `None` is modelled with `Option` (or an explicit `vnone` value in
  the serialization model, where the dynamic type of a value matters).
* Functions of the `os.path` module and other library calls that the source
  relies on are translated from their POSIX (CPython `posixpath`) semantics.
* External effectful collaborators (the file system, `hashlib.sha256`,
  `re.search` on user-supplied rule patterns) enter as explicit parameters.
-/

/-! ## Command-node identity (`CommandAction.__eq__`, `__ne__`, `__hash__`)

From the source:
```
class CommandAction(Action):
    def __init__(self, command, ignores=None):
        ...
        self.command = command
        self.ignores = ignores or []
        self.status = None

    def __eq__(self, other):
        if isinstance(other, CommandAction):
            return (self.command == other.command) \
                and (self.ignores == other.ignores)
        else:
            return False

    def __hash__(self):
        return hash(self.command)
```
-/

namespace CmdIdent

/-- The identity-relevant instance state of a `CommandAction`: the command
string, the ignore-pattern list, and the recorded exit status
(`None` before any run). -/
structure CommandActionState where
  command : String
  ignores : List String
  status : Option Int
deriving DecidableEq

/-- `CommandAction.__eq__` against another `CommandAction`: the source compares
the `command` strings *and* the `ignores` lists. -/
def commandActionEq (a b : CommandActionState) : Bool :=
  (a.command == b.command) && (a.ignores == b.ignores)

/-- `CommandAction.__hash__` returns `hash(self.command)`: the value fed to the
hash function, which fully determines the hash. -/
def commandActionHashKey (a : CommandActionState) : String :=
  a.command

/-- C5 counterexample: two `CommandAction`s with the *same* command string but
different ignore lists are *not* equal under `__eq__`, contradicting the claim
that equality is determined by the command string alone. -/
theorem commandActionEq_uses_ignores :
    commandActionEq ⟨"biber doc", ["\\.blg$"], none⟩ ⟨"biber doc", [], none⟩ = false := by
  decide

/-- C5 (amended): `CommandAction` equality is determined by the pair
`(command, ignores)` — the recorded exit status plays no role — while the hash
is determined by the command string alone. -/
theorem commandActionEq_spec :
    (∀ a b : CommandActionState,
      commandActionEq a b = true ↔ a.command = b.command ∧ a.ignores = b.ignores)
    ∧ (∀ a b : CommandActionState,
      commandActionHashKey a = commandActionHashKey b ↔ a.command = b.command) := by
  constructor
  · intro a b
    simp [commandActionEq]
  · intro a b
    simp [commandActionHashKey]

/-- Witness for C5 (amended) at concrete nodes: same command and ignores,
different statuses, still equal. -/
theorem commandActionEq_spec_witness :
    commandActionEq ⟨"biber doc", ["\\.blg$"], none⟩ ⟨"biber doc", ["\\.blg$"], some 0⟩
      = true :=
  (commandActionEq_spec.1 ⟨"biber doc", ["\\.blg$"], none⟩
    ⟨"biber doc", ["\\.blg$"], some 0⟩).mpr ⟨rfl, rfl⟩

end CmdIdent

/-! ## File digests (`FileAction.calc_file_checksum`)

From the source:
```
    def calc_file_checksum(self):
        try:
            with open(self.path, 'rb') as binfile:
                return hashlib.sha256(binfile.read()).digest()
        except IOError:
            return b''
```
The file system is modelled as a partial map from paths to byte contents
(`none` models an `IOError` on open/read), and `hashlib.sha256(...).digest()`
as an explicit parameter `sha` (a genuine SHA-256 digest is 32 bytes long). -/

namespace Digest

/-- `FileAction.calc_file_checksum`: read the file fully and hash it; an
`IOError` yields the empty byte string. -/
def calcFileChecksum (sha : List Nat → List Nat) (fs : String → Option (List Nat))
    (path : String) : List Nat :=
  match fs path with
  | some content => sha content
  | none => []

/-- `FileAction.needs_update` (with `self.path not in INOTIFY_FILTER` and the
stored checksum): dirty, or the path is unsuppressed and the stored checksum
differs from the freshly computed one.  Defined here to record that it
consumes the (total) digest result. -/
def fileNeedsUpdate (sha : List Nat → List Nat) (fs : String → Option (List Nat))
    (inotifyFilter : List String) (path : String) (checksum : Option (List Nat))
    (dirty : Bool) : Bool :=
  dirty || (!(inotifyFilter.contains path)
    && !(checksum == some (calcFileChecksum sha fs path)))

/-- C9: the digest computation is total — on a successful read it returns the
SHA-256 of the full contents, and on an I/O failure it returns the empty byte
string, which is distinct from every real SHA-256 digest (those are 32 bytes
long); `needs_update` therefore always receives a well-defined value. -/
theorem calc_file_checksum_spec (sha : List Nat → List Nat)
    (fs : String → Option (List Nat)) (path : String)
    (hsha : ∀ b : List Nat, (sha b).length = 32) :
    (fs path = none →
      calcFileChecksum sha fs path = [] ∧ ∀ b, calcFileChecksum sha fs path ≠ sha b)
    ∧ (∀ c, fs path = some c → calcFileChecksum sha fs path = sha c)
    ∧ (∀ checksum dirty filt,
        fileNeedsUpdate sha fs filt path checksum dirty
          = (dirty || (!(filt.contains path)
              && !(checksum == some (calcFileChecksum sha fs path))))) := by
  refine ⟨?_, ?_, ?_⟩
  · intro hnone
    constructor
    · simp [calcFileChecksum, hnone]
    · intro b hb
      have hlen : ([] : List Nat).length = 32 := by
        rw [show calcFileChecksum sha fs path = [] by simp [calcFileChecksum, hnone]] at hb
        rw [hb]; exact hsha b
      simp at hlen
  · intro c hc
    simp [calcFileChecksum, hc]
  · intro checksum dirty filt
    rfl

/-- Witness for C9 at a concrete instance: a read failure produces the empty
byte string. -/
theorem calc_file_checksum_spec_witness :
    calcFileChecksum (fun _ => List.replicate 32 0) (fun _ => none) "doc.tex" = [] :=
  ((calc_file_checksum_spec (fun _ => List.replicate 32 0) (fun _ => none) "doc.tex"
    (fun _ => by simp)).1 rfl).1

end Digest

/-! ## The fixed-point round cap (`main` loop tail)

From the source (the non-continuous path of `main`, with the interrupt flag
never set):
```
    changed = True
    rounds = 0
    while changed and not terminate:
        changed = False
        schedule = ...
        for action in schedule:
            ...
            changed = True
        ...
        if changed:
            save_state(actions)
        elif CONFIG['continuously'] and not terminate:
            ...
            continue
        rounds = rounds + 1
        if (CONFIG['max_rounds'] != 0) \
                and (rounds > CONFIG['max_rounds']) \
                and not terminate:
            print_error('Reached maximum number of rounds!')
            exit(1)
```
The graph work of round `k` is abstracted by `changes k : Bool` — whether the
round's schedule performed any update (which is what sets `changed`).  The
loop is given explicit fuel so that a non-terminating run (`max_rounds = 0`
with every round changing) is the `none` outcome. -/

namespace RoundCap

/-- How a run of the main loop ends: `capExceeded k` is `exit(1)` after the
round counter reached `k > max_rounds`; `converged k` is falling out of the
`while` after round `k` made no change. -/
inductive EngineExit where
  | capExceeded (roundsRun : Nat)
  | converged (roundsRun : Nat)
deriving DecidableEq

/-- One `while` iteration and its successors: `changed` is the value tested by
the `while` condition, `rounds` the counter after the previous iteration.
Round `rounds + 1` computes its change flag, increments the counter, and then
— before the `while` condition is re-examined — performs the cap check. -/
def engineLoop (maxRounds : Nat) (changes : Nat → Bool) :
    Nat → Bool → Nat → Option EngineExit
  | 0, _, _ => none
  | _ + 1, false, rounds => some (.converged rounds)
  | fuel + 1, true, rounds =>
    let changedNext := changes (rounds + 1)
    let roundsNext := rounds + 1
    if maxRounds ≠ 0 ∧ roundsNext > maxRounds then some (.capExceeded roundsNext)
    else engineLoop maxRounds changes fuel changedNext roundsNext

/-- The loop as entered by `main`: `changed = True`, `rounds = 0`. -/
def engineRun (maxRounds : Nat) (changes : Nat → Bool) (fuel : Nat) : Option EngineExit :=
  engineLoop maxRounds changes fuel true 0

/-- C7 counterexample: with `max_rounds = 1` and every round reporting a
change, the engine does *not* exit after 1 round — it runs a second round and
only then exits with the non-convergence failure.  The claim's reading
"after `max_rounds` rounds the engine exits" is off by one against the code's
`rounds > max_rounds` check. -/
theorem engineRun_cap_off_by_one :
    engineRun 1 (fun _ => true) 10 = some (.capExceeded 2)
    ∧ engineRun 1 (fun _ => true) 10 ≠ some (.capExceeded 1) := by
  constructor
  · rfl
  · decide

/-- Auxiliary invariant for the capped loop: from a state inside the loop with
the counter at `rounds ≤ maxRounds` and every remaining round (through
`maxRounds + 1`) still changing, the loop exits with `capExceeded
(maxRounds + 1)`. -/
theorem engineLoop_cap (maxRounds : Nat) (changes : Nat → Bool) :
    ∀ fuel rounds, maxRounds ≠ 0 → rounds ≤ maxRounds →
    (∀ k, rounds < k → k ≤ maxRounds + 1 → changes k = true) →
    maxRounds + 1 - rounds ≤ fuel →
    engineLoop maxRounds changes fuel true rounds = some (.capExceeded (maxRounds + 1)) := by
  intro fuel
  induction fuel with
  | zero =>
    intro rounds _ hle _ hfuel
    omega
  | succ n ih =>
    intro rounds hmax hle hch hfuel
    show (if maxRounds ≠ 0 ∧ rounds + 1 > maxRounds
        then some (EngineExit.capExceeded (rounds + 1))
        else engineLoop maxRounds changes n (changes (rounds + 1)) (rounds + 1))
      = some (.capExceeded (maxRounds + 1))
    by_cases htop : rounds + 1 > maxRounds
    · have : rounds + 1 = maxRounds + 1 := by omega
      simp [hmax, htop, this]
    · have hch1 : changes (rounds + 1) = true := hch _ (by omega) (by omega)
      rw [if_neg (by omega), hch1]
      exact ih (rounds + 1) hmax (by omega) (fun k hk1 hk2 => hch k (by omega) hk2) (by omega)

/-- Auxiliary: with `max_rounds = 0` the cap check never fires; if round `m`
is the first that makes no change, the loop converges there. -/
theorem engineLoop_nocap_converges (changes : Nat → Bool) :
    ∀ fuel rounds m, rounds < m → changes m = false →
    (∀ k, rounds < k → k < m → changes k = true) →
    m - rounds < fuel →
    engineLoop 0 changes fuel true rounds = some (.converged m) := by
  intro fuel
  induction fuel with
  | zero =>
    intro rounds m hlt _ _ hfuel
    omega
  | succ n ih =>
    intro rounds m hlt hm hch hfuel
    show (if (0 : Nat) ≠ 0 ∧ rounds + 1 > 0
        then some (EngineExit.capExceeded (rounds + 1))
        else engineLoop 0 changes n (changes (rounds + 1)) (rounds + 1))
      = some (.converged m)
    rw [if_neg (by simp)]
    by_cases hend : rounds + 1 = m
    · subst hend
      rw [hm]
      cases n with
      | zero => omega
      | succ k => rfl
    · have hch1 : changes (rounds + 1) = true := hch _ (by omega) (by omega)
      rw [hch1]
      exact ih (rounds + 1) m (by omega) hm (fun k hk1 hk2 => hch k (by omega) hk2) (by omega)

/-- Auxiliary: with `max_rounds = 0` and every round changing, the loop never
exits (it consumes all fuel). -/
theorem engineLoop_nocap_diverges (changes : Nat → Bool)
    (hall : ∀ k, changes k = true) :
    ∀ fuel rounds, engineLoop 0 changes fuel true rounds = none := by
  intro fuel
  induction fuel with
  | zero => intro rounds; rfl
  | succ n ih =>
    intro rounds
    show (if (0 : Nat) ≠ 0 ∧ rounds + 1 > 0
        then some (EngineExit.capExceeded (rounds + 1))
        else engineLoop 0 changes n (changes (rounds + 1)) (rounds + 1)) = none
    rw [if_neg (by simp), hall]
    exact ih (rounds + 1)

/-- C7 (amended): if every round through `max_rounds + 1` still reports a
change, the engine exits with the non-convergence failure after exactly
`max_rounds + 1` rounds (the check `rounds > max_rounds` fires at the end of
round `max_rounds + 1`); a `max_rounds` of `0` disables the cap entirely —
the loop then runs until the first round that produces no change, and runs
forever if no such round exists. -/
theorem engineRun_cap_spec (maxRounds : Nat) (changes : Nat → Bool) :
    (maxRounds ≠ 0 → (∀ k, 1 ≤ k → k ≤ maxRounds + 1 → changes k = true) →
      ∀ fuel, maxRounds + 1 ≤ fuel →
        engineRun maxRounds changes fuel = some (.capExceeded (maxRounds + 1)))
    ∧ (∀ m, 1 ≤ m → changes m = false → (∀ k, 1 ≤ k → k < m → changes k = true) →
      ∀ fuel, m < fuel → engineRun 0 changes fuel = some (.converged m))
    ∧ ((∀ k, changes k = true) → ∀ fuel, engineRun 0 changes fuel = none) := by
  refine ⟨?_, ?_, ?_⟩
  · intro hmax hch fuel hfuel
    exact engineLoop_cap maxRounds changes fuel 0 hmax (by omega)
      (fun k hk1 hk2 => hch k (by omega) hk2) (by omega)
  · intro m hm1 hm hch fuel hfuel
    exact engineLoop_nocap_converges changes fuel 0 m (by omega) hm
      (fun k hk1 hk2 => hch k (by omega) hk2) (by omega)
  · intro hall fuel
    exact engineLoop_nocap_diverges changes hall fuel 0

/-- Witness for C7 (amended) at concrete inputs: a cap of 2 with every round
changing exits `capExceeded 3`, and with no cap a first quiet round at 3
converges there. -/
theorem engineRun_cap_spec_witness :
    engineRun 2 (fun _ => true) 5 = some (.capExceeded 3)
    ∧ engineRun 0 (fun k => !(k == 3)) 5 = some (.converged 3) := by
  constructor
  · exact (engineRun_cap_spec 2 (fun _ => true)).1 (by decide)
      (fun k _ _ => rfl) 5 (by decide)
  · exact (engineRun_cap_spec 0 (fun k => !(k == 3))).2.1 3 (by decide) (by decide)
      (fun k hk1 hk2 => by interval_cases k <;> rfl) 5 (by decide)

end RoundCap

/-! ## Scheduler round ordering (`main` schedule construction)

From the source:
```
    schedule = sorted((a for a in actions if a.needs_update()),
                      key=operator.methodcaller('priority'))
```
with
```
class FileAction(Action):
    def priority(self):
        return -100
class CommandAction(Action):
    def priority(self):
        return 100
```
Python's `sorted` is a stable ascending sort by the key; it is modelled by
`List.mergeSort` (also stable) on the `needs_update`-filtered node list.  A
graph node is one of the two variants; subtypes of `CommandAction` do not
override `priority` and are ordinary command nodes here.  `needs_update` for
files consumes the current digest (`calc`, the composition of
`calc_file_checksum` with the file system, as in the `Digest` section) and
the continuous-mode suppression set `INOTIFY_FILTER` (`filt`). -/

namespace Sched

/-- A graph node: a `FileAction` (path, stored checksum, dirty flag) or a
`CommandAction` (command string, ignore patterns, exit status, dirty flag). -/
inductive ANode where
  | file (path : String) (checksum : Option (List Nat)) (dirty : Bool)
  | command (command : String) (ignores : List String) (status : Option Int) (dirty : Bool)
deriving DecidableEq

/-- `priority`: `-100` for `FileAction`, `100` for `CommandAction`. -/
def ANode.priority : ANode → Int
  | .file .. => -100
  | .command .. => 100

/-- Is this node a `FileAction`? -/
def ANode.isFile : ANode → Bool
  | .file .. => true
  | .command .. => false

/-- Is this node a `CommandAction`? -/
def ANode.isCommand : ANode → Bool
  | .file .. => false
  | .command .. => true

/-- `needs_update`: a `FileAction` needs an update when dirty, or when its
path is unsuppressed and the stored checksum differs from the current digest;
a `CommandAction` (inheriting `Action.needs_update`) exactly when dirty. -/
def ANode.needsUpdate (dig : String → List Nat) (filt : List String) : ANode → Bool
  | .file path checksum dirty =>
      dirty || (!(filt.contains path) && !(checksum == some (dig path)))
  | .command _ _ _ dirty => dirty

/-- The schedule of one round: the stable ascending sort, by `priority`, of
the nodes reporting `needs_update`. -/
def schedule (dig : String → List Nat) (filt : List String)
    (actions : List ANode) : List ANode :=
  (actions.filter (ANode.needsUpdate dig filt)).mergeSort
    (fun a b => decide (a.priority ≤ b.priority))

/-- A priority-sorted node list splits into files followed by commands. -/
theorem pairwise_priority_split (l : List ANode)
    (h : l.Pairwise (fun a b => a.priority ≤ b.priority)) :
    ∃ fs cs, l = fs ++ cs ∧ (∀ a ∈ fs, a.isFile = true) ∧ (∀ a ∈ cs, a.isCommand = true) := by
  induction l with
  | nil => exact ⟨[], [], rfl, by simp, by simp⟩
  | cons a t ih =>
    obtain ⟨hhead, htail⟩ := List.pairwise_cons.mp h
    match ha : a with
    | .file p c d =>
      obtain ⟨fs, cs, heq, hfs, hcs⟩ := ih htail
      refine ⟨.file p c d :: fs, cs, by rw [heq, List.cons_append], ?_, hcs⟩
      intro x hx
      rcases List.mem_cons.mp hx with h1 | h1
      · subst h1; rfl
      · exact hfs x h1
    | .command cstr ig st d =>
      refine ⟨[], .command cstr ig st d :: t, rfl, by simp, ?_⟩
      intro x hx
      rcases List.mem_cons.mp hx with h1 | h1
      · subst h1; rfl
      · have hle := hhead x h1
        match x with
        | .file .. => simp [ANode.priority] at hle
        | .command .. => rfl

/-- C6: within a single round the schedule is sorted ascending by priority
(files at `-100`, commands at `+100`), hence it is a block of `FileAction`s
followed by a block of `CommandAction`s — every dirty file node updates
before any command node — and the sort is stable: the file nodes appear in
their original relative order, and likewise the command nodes. -/
theorem schedule_files_before_commands (dig : String → List Nat)
    (filt : List String) (actions : List ANode) :
    (schedule dig filt actions).Pairwise (fun a b => a.priority ≤ b.priority)
    ∧ (∃ fs cs, schedule dig filt actions = fs ++ cs
        ∧ (∀ a ∈ fs, a.isFile = true) ∧ (∀ a ∈ cs, a.isCommand = true))
    ∧ (schedule dig filt actions).filter ANode.isFile
        = (actions.filter (ANode.needsUpdate dig filt)).filter ANode.isFile
    ∧ (schedule dig filt actions).filter ANode.isCommand
        = (actions.filter (ANode.needsUpdate dig filt)).filter ANode.isCommand := by
  have htrans : ∀ a b c : ANode, decide (a.priority ≤ b.priority) →
      decide (b.priority ≤ c.priority) → decide (a.priority ≤ c.priority) := by
    intro a b c h1 h2
    simp only [decide_eq_true_eq] at h1 h2 ⊢
    omega
  have htotal : ∀ a b : ANode,
      decide (a.priority ≤ b.priority) || decide (b.priority ≤ a.priority) := by
    intro a b
    rcases Int.le_total a.priority b.priority with h | h <;> simp [h]
  have hpw : (schedule dig filt actions).Pairwise (fun a b => a.priority ≤ b.priority) := by
    have := List.sorted_mergeSort htrans htotal
      (actions.filter (ANode.needsUpdate dig filt))
    exact this.imp (fun h => of_decide_eq_true h)
  have hstable : ∀ p : ANode → Bool,
      (∀ a b : ANode, p a = true → p b = true → a.priority ≤ b.priority) →
      (schedule dig filt actions).filter p
        = (actions.filter (ANode.needsUpdate dig filt)).filter p := by
    intro p hp
    set cand := actions.filter (ANode.needsUpdate dig filt) with hcand
    have hpair : (cand.filter p).Pairwise (fun a b => decide (a.priority ≤ b.priority)) := by
      apply List.pairwise_of_forall_mem_list
      intro a ha b hb
      exact decide_eq_true
        (hp a b (List.of_mem_filter ha) (List.of_mem_filter hb))
    have hsubl : List.Sublist (cand.filter p) (schedule dig filt actions) :=
      List.sublist_mergeSort htrans htotal hpair (List.filter_sublist cand)
    have hself : (cand.filter p).filter p = cand.filter p := by
      rw [List.filter_filter]
      simp
    have hsubf : List.Sublist (cand.filter p) ((schedule dig filt actions).filter p) := by
      have := hsubl.filter p
      rwa [hself] at this
    have hperm : List.Perm ((schedule dig filt actions).filter p) (cand.filter p) :=
      (List.mergeSort_perm cand _).filter p
    exact (hsubf.eq_of_length hperm.length_eq.symm).symm
  refine ⟨hpw, pairwise_priority_split _ hpw, ?_, ?_⟩
  · exact hstable ANode.isFile (by
      intro a b ha hb
      match a, b with
      | .file .., .file .. => simp [ANode.priority]
      | .file .., .command .. => simp [ANode.isFile] at hb
      | .command .., _ => simp [ANode.isFile] at ha)
  · exact hstable ANode.isCommand (by
      intro a b ha hb
      match a, b with
      | .command .., .command .. => simp [ANode.priority]
      | .command .., .file .. => simp [ANode.isCommand] at hb
      | .file .., _ => simp [ANode.isCommand] at ha)

/-- Witness for C6 at a concrete two-node round: the dirty command node is
scheduled after the dirty file node. -/
theorem schedule_files_before_commands_witness :
    ∃ fs cs, schedule (fun _ => []) []
        [ANode.command "lualatex doc.tex" [] none true,
         ANode.file "doc.tex" none true] = fs ++ cs
      ∧ (∀ a ∈ fs, a.isFile = true) ∧ (∀ a ∈ cs, a.isCommand = true) :=
  (schedule_files_before_commands (fun _ => []) []
    [ANode.command "lualatex doc.tex" [] none true,
     ANode.file "doc.tex" none true]).2.1

end Sched


/-! ## Rule-table template substitution (`detect_actions`, middle part)

From the source:
```
    s_path = path
    s_woext, s_ext = os.path.splitext(path)
    s_dir, s_basename = os.path.split(path)
    replace_dict = {
        '??': '?',
        '?b': s_basename,
        '?d': s_dir,
        '?e': s_ext,
        '?p': s_path,
        '?w': s_woext
    }
    pattern = re.compile('|'.join(
        re.escape(k)
        for k in replace_dict.keys()
    ))
    ...
            if type(value) == str:
                args[key] = pattern.sub(
                    lambda x: replace_dict[x.group()],
                    value
                )
```
`re.sub` scans the template left to right; at each position it tries the
alternatives in dictionary insertion order (`??` first, then `?b`, `?d`,
`?e`, `?p`, `?w`), emits the replacement on a match and continues *after* the
matched text, or — when no alternative matches here — emits the character and
advances by one.  Substituted text is never rescanned.  `pySubst` mirrors
this scan; the if-chain tries the alternatives in the same order.  Strings
are worked with as `List Char`. -/

namespace Subst

/-- `os.path.split` (POSIX): split after the last `/`; the head keeps its
trailing slashes stripped unless it consists only of slashes. -/
def pySplitPath (p : List Char) : List Char × List Char :=
  let tail := (p.reverse.takeWhile (fun c => c != '/')).reverse
  let headRaw := (p.reverse.dropWhile (fun c => c != '/')).reverse
  let headStripped :=
    if headRaw ≠ [] ∧ ¬ (headRaw.all (fun c => c == '/'))
    then (headRaw.reverse.dropWhile (fun c => c == '/')).reverse
    else headRaw
  (headStripped, tail)

/-- `os.path.splitext` (POSIX): split at the last `.` of the final component,
unless that component consists of leading dots only up to that `.`. -/
def pySplitExt (p : List Char) : List Char × List Char :=
  let head := (p.reverse.dropWhile (fun c => c != '/')).reverse
  let base := (p.reverse.takeWhile (fun c => c != '/')).reverse
  let extRev := base.reverse.takeWhile (fun c => c != '.')
  if extRev.length = base.length then (p, [])
  else
    let stem := base.take (base.length - extRev.length - 1)
    if stem.all (fun c => c == '.') then (p, [])
    else (head ++ stem, '.' :: extRev.reverse)

/-- The single left-to-right `re.sub` pass over a template, with the
replacement values for `?b`, `?d`, `?e`, `?p`, `?w` as parameters (`??`
always yields a literal `?`).  The match alternatives are tried in the
dictionary insertion order of `replace_dict`; on a match the scan continues
after the matched text, otherwise it emits one character and advances. -/
def pySubst (vb vd ve vp vw : List Char) : List Char → List Char
  | '?' :: '?' :: rest => '?' :: pySubst vb vd ve vp vw rest
  | '?' :: 'b' :: rest => vb ++ pySubst vb vd ve vp vw rest
  | '?' :: 'd' :: rest => vd ++ pySubst vb vd ve vp vw rest
  | '?' :: 'e' :: rest => ve ++ pySubst vb vd ve vp vw rest
  | '?' :: 'p' :: rest => vp ++ pySubst vb vd ve vp vw rest
  | '?' :: 'w' :: rest => vw ++ pySubst vb vd ve vp vw rest
  | c :: rest => c :: pySubst vb vd ve vp vw rest
  | [] => []

/-- The substitution `detect_actions` applies for a given `path`: values
derived from the path by `os.path.splitext` and `os.path.split`. -/
def substForPath (path template : List Char) : List Char :=
  pySubst (pySplitPath path).2 (pySplitPath path).1 (pySplitExt path).2
    path (pySplitExt path).1 template

/-- Does this character complete a letter placeholder after a `?`. -/
def isPlacehLetter (c : Char) : Bool :=
  c == 'b' || c == 'd' || c == 'e' || c == 'p' || c == 'w'

/-- Head-of-list test: the next character would complete a `?`-match. -/
def headSpecial (l : List Char) : Bool :=
  match l.head? with
  | some c2 => c2 == '?' || isPlacehLetter c2
  | none => false

/-- A string on which the substitution scanner finds no match at any
position (no `??` and no `?b`/`?d`/`?e`/`?p`/`?w` anywhere). -/
def inertB : List Char → Bool
  | [] => true
  | c :: rest => (!(c == '?' && headSpecial rest)) && inertB rest

/-- Head-of-list test: the next two characters are `??`. -/
def headTwoQ : List Char → Bool
  | '?' :: '?' :: _ => true
  | _ => false

/-- Head-of-list test: the next character is a placeholder letter. -/
def headLetter (l : List Char) : Bool :=
  match l.head? with
  | some c2 => isPlacehLetter c2
  | none => false

/-- The amended guard: the template contains no occurrence of a letter
placeholder `?b`/`?d`/`?e`/`?p`/`?w` (not even one overlapping an escape, as
in `a??b`) and no run `???`; its question marks are lone `?`s and isolated
escapes `??`. -/
def goodB : List Char → Bool
  | [] => true
  | c :: rest => (!(c == '?' && (headLetter rest || headTwoQ rest))) && goodB rest

/-- Scanning from a character other than `?` always just emits it. -/
theorem pySubst_cons_ne (vb vd ve vp vw : List Char) (c : Char) (r : List Char)
    (hc : ¬ c = '?') :
    pySubst vb vd ve vp vw (c :: r) = c :: pySubst vb vd ve vp vw r := by
  rw [pySubst.eq_def]
  split
  all_goals simp_all

/-- Scanning from a `?` followed by a non-special character emits the `?`. -/
theorem pySubst_q_cons_ne (vb vd ve vp vw : List Char) (c2 : Char) (r : List Char)
    (hq : ¬ c2 = '?') (hl : isPlacehLetter c2 = false) :
    pySubst vb vd ve vp vw ('?' :: c2 :: r) = '?' :: pySubst vb vd ve vp vw (c2 :: r) := by
  simp only [isPlacehLetter, Bool.or_eq_false_iff, beq_eq_false_iff_ne, ne_eq] at hl
  rw [pySubst.eq_def]
  split
  all_goals simp_all
  all_goals (rename_i heq; exact heq.1.symm)

/-- A match-free string is a fixed point of the substitution pass. -/
theorem pySubst_of_inertB (vb vd ve vp vw : List Char) :
    ∀ s : List Char, inertB s = true → pySubst vb vd ve vp vw s = s := by
  intro s
  induction s with
  | nil => intro _; rfl
  | cons c rest ih =>
    intro h
    simp only [inertB, Bool.and_eq_true, Bool.not_eq_true'] at h
    obtain ⟨hhead, htail⟩ := h
    by_cases hc : c = '?'
    · subst hc
      simp only [beq_self_eq_true, Bool.true_and] at hhead
      match rest with
      | [] => rfl
      | c2 :: r2 =>
        simp only [headSpecial, List.head?, Bool.or_eq_false_iff,
          beq_eq_false_iff_ne, ne_eq] at hhead
        rw [pySubst_q_cons_ne vb vd ve vp vw c2 r2 hhead.1 hhead.2, ih htail]
    · rw [pySubst_cons_ne vb vd ve vp vw c rest hc, ih htail]

/-- Helper: prefixing a `?` to a substitution result stays match-free when
the substituted tail does not begin with a special character. -/
theorem inertB_q_cons (vb vd ve vp vw : List Char) (rest : List Char)
    (hhead : headSpecial rest = false)
    (ih : inertB (pySubst vb vd ve vp vw rest) = true) :
    inertB ('?' :: pySubst vb vd ve vp vw rest) = true := by
  match rest with
  | [] =>
    simp [pySubst, inertB, headSpecial]
  | c2 :: r2 =>
    simp only [headSpecial, List.head?, Bool.or_eq_false_iff,
      beq_eq_false_iff_ne, ne_eq] at hhead
    rw [pySubst_cons_ne vb vd ve vp vw c2 r2 hhead.1] at ih ⊢
    simp only [inertB, Bool.and_eq_true, Bool.not_eq_true'] at ih ⊢
    refine ⟨?_, ih.1, ih.2⟩
    simp [headSpecial, hhead.1, hhead.2]

/-- Unpacking one scanner position of the guard. -/
theorem goodB_cons_true (c : Char) (rest : List Char) (h : goodB (c :: rest) = true) :
    (c = '?' → headLetter rest = false ∧ headTwoQ rest = false) ∧ goodB rest = true := by
  rw [goodB] at h
  constructor
  · intro hc
    subst hc
    cases hL : headLetter rest <;> cases hT : headTwoQ rest <;> simp_all
  · cases hg : goodB rest <;> simp_all

/-- Repacking one scanner position of match-freeness. -/
theorem inertB_cons_true (c : Char) (rest : List Char)
    (h1 : c = '?' → headSpecial rest = false) (h2 : inertB rest = true) :
    inertB (c :: rest) = true := by
  rw [inertB]
  by_cases hc : c = '?'
  · subst hc
    simp [h1 rfl, h2]
  · simp [hc, h2]

/-- Under the amended guard, one pass leaves a match-free string: the only
rewrites performed are `??` escapes, and each collapsed `?` lands next to a
harmless character. -/
theorem inertB_pySubst (vb vd ve vp vw : List Char) :
    ∀ s : List Char, goodB s = true → inertB (pySubst vb vd ve vp vw s) = true := by
  intro s
  induction s using pySubst.induct vb vd ve vp vw with
  | case1 rest ih =>
    intro h
    obtain ⟨hpos0, h1⟩ := goodB_cons_true _ _ h
    obtain ⟨hpos1, htail⟩ := goodB_cons_true _ _ h1
    have hq2 : headTwoQ ('?' :: rest) = false := (hpos0 rfl).2
    have hrl : headLetter rest = false := (hpos1 rfl).1
    have hhs : headSpecial rest = false := by
      match rest with
      | [] => rfl
      | c2 :: r2 =>
        have hq : ¬ c2 = '?' := by
          intro hx
          subst hx
          simp [headTwoQ] at hq2
        simp only [headLetter, List.head?] at hrl
        simp [headSpecial, hq, hrl]
    show inertB ('?' :: pySubst vb vd ve vp vw rest) = true
    exact inertB_q_cons vb vd ve vp vw rest hhs (ih htail)
  | case2 rest ih =>
    intro h
    have := ((goodB_cons_true _ _ h).1 rfl).1
    simp [headLetter, isPlacehLetter] at this
  | case3 rest ih =>
    intro h
    have := ((goodB_cons_true _ _ h).1 rfl).1
    simp [headLetter, isPlacehLetter] at this
  | case4 rest ih =>
    intro h
    have := ((goodB_cons_true _ _ h).1 rfl).1
    simp [headLetter, isPlacehLetter] at this
  | case5 rest ih =>
    intro h
    have := ((goodB_cons_true _ _ h).1 rfl).1
    simp [headLetter, isPlacehLetter] at this
  | case6 rest ih =>
    intro h
    have := ((goodB_cons_true _ _ h).1 rfl).1
    simp [headLetter, isPlacehLetter] at this
  | case7 c rest hq hb hd he hp hw ih =>
    intro h
    have htail : goodB rest = true := (goodB_cons_true _ _ h).2
    by_cases hc : c = '?'
    · subst hc
      have hhs : headSpecial rest = false := by
        match rest with
        | [] => rfl
        | c2 :: r2 =>
          have h1 : ¬ c2 = '?' := fun hx => hq r2 rfl (by rw [hx])
          have h2 : ¬ c2 = 'b' := fun hx => hb r2 rfl (by rw [hx])
          have h3 : ¬ c2 = 'd' := fun hx => hd r2 rfl (by rw [hx])
          have h4 : ¬ c2 = 'e' := fun hx => he r2 rfl (by rw [hx])
          have h5 : ¬ c2 = 'p' := fun hx => hp r2 rfl (by rw [hx])
          have h6 : ¬ c2 = 'w' := fun hx => hw r2 rfl (by rw [hx])
          simp [headSpecial, isPlacehLetter, h1, h2, h3, h4, h5, h6]
      match rest with
      | [] =>
        show inertB (pySubst vb vd ve vp vw ['?']) = true
        rfl
      | c2 :: r2 =>
        simp only [headSpecial, List.head?, Bool.or_eq_false_iff,
          beq_eq_false_iff_ne, ne_eq] at hhs
        rw [pySubst_q_cons_ne vb vd ve vp vw c2 r2 hhs.1 hhs.2]
        exact inertB_q_cons vb vd ve vp vw (c2 :: r2) (by
          simp [headSpecial, hhs.1, hhs.2]) (ih htail)
    · rw [pySubst_cons_ne vb vd ve vp vw c rest hc]
      exact inertB_cons_true c _ (fun hx => absurd hx hc) (ih htail)
  | case8 => intro _; rfl

/-- A `?`-free prefix scans to itself, and the scan continues independently on
the rest. -/
theorem pySubst_append_qfree (vb vd ve vp vw : List Char) (u w : List Char)
    (hu : ∀ c ∈ u, ¬ c = '?') :
    pySubst vb vd ve vp vw (u ++ w) = u ++ pySubst vb vd ve vp vw w := by
  induction u with
  | nil => rfl
  | cons c u2 ih =>
    rw [List.cons_append, pySubst_cons_ne vb vd ve vp vw c (u2 ++ w)
      (hu c (List.mem_cons_self c u2)), ih (fun x hx => hu x (List.mem_cons_of_mem c hx)),
      List.cons_append]

/-- C4 (amended): the substitution is a single simultaneous left-to-right
pass — after a `?`-free prefix, each of the six patterns `??`, `?b`, `?d`,
`?e`, `?p`, `?w` is rewritten to its value verbatim (even if that value
itself contains placeholders) and the scan resumes after the pattern, never
inside the substituted text — and it is idempotent on templates that contain
no occurrence of a letter placeholder and no `???` run, so that their only
`?`-sequences are lone `?`s and `??` escapes. -/
theorem pySubst_single_pass_guarded_idempotent (vb vd ve vp vw : List Char) :
    (∀ pv ∈ [(['?', '?'], ['?']), (['?', 'b'], vb), (['?', 'd'], vd), (['?', 'e'], ve),
        (['?', 'p'], vp), (['?', 'w'], vw)],
      ∀ u v : List Char, (∀ c ∈ u, ¬ c = '?') →
        pySubst vb vd ve vp vw (u ++ pv.1 ++ v) = u ++ pv.2 ++ pySubst vb vd ve vp vw v)
    ∧ (∀ s : List Char, goodB s = true →
        pySubst vb vd ve vp vw (pySubst vb vd ve vp vw s) = pySubst vb vd ve vp vw s) := by
  constructor
  · intro pv hpv u v hu
    rw [List.append_assoc, pySubst_append_qfree vb vd ve vp vw u (pv.1 ++ v) hu,
      List.append_assoc]
    congr 1
    fin_cases hpv <;> rfl
  · intro s hg
    exact pySubst_of_inertB vb vd ve vp vw (pySubst vb vd ve vp vw s)
      (inertB_pySubst vb vd ve vp vw s hg)

/-- Witness for C4 (amended) at concrete inputs: the `?p` pattern after a
`?`-free prefix substitutes verbatim, and a template whose `?`s are only an
escape is a substitution fixed point. -/
theorem pySubst_single_pass_guarded_idempotent_witness :
    pySubst "B".data "D".data "E".data "P".data "W".data ("x".data ++ ['?', 'p'] ++ "y".data)
      = "x".data ++ "P".data ++ pySubst "B".data "D".data "E".data "P".data "W".data "y".data
    ∧ pySubst "B".data "D".data "E".data "P".data "W".data
        (pySubst "B".data "D".data "E".data "P".data "W".data "a??c".data)
      = pySubst "B".data "D".data "E".data "P".data "W".data "a??c".data := by
  constructor
  · exact (pySubst_single_pass_guarded_idempotent "B".data "D".data "E".data "P".data
      "W".data).1 (['?', 'p'], "P".data) (by decide) "x".data "y".data (by decide)
  · exact (pySubst_single_pass_guarded_idempotent "B".data "D".data "E".data "P".data
      "W".data).2 "a??c".data (by decide)

/-- C4 counterexample: for the path `doc.tex` and template `a??b` — a string
whose only `?`-sequence, as far as the scanner's matches go, is the escape
`??` (the overlapping `?b` at offset 2 is never matched) — substitution is
not idempotent: one pass yields `a?b`, whose `?b` the second pass expands to
the basename `doc.tex`. -/
theorem substForPath_not_idempotent :
    substForPath "doc.tex".data "a??b".data = "a?b".data
    ∧ substForPath "doc.tex".data (substForPath "doc.tex".data "a??b".data)
      = "adoc.tex".data
    ∧ substForPath "doc.tex".data (substForPath "doc.tex".data "a??b".data)
      ≠ substForPath "doc.tex".data "a??b".data := by
  refine ⟨by decide, by decide, by decide⟩

end Subst

/-! ## Layered config merge (`patch_dict`, `patch_list`)

From the source:
```
def patch_list(orig, patch):
    # parse patch
    blacklist = set()
    extension = []
    for entry in patch:
        if entry is not None:
            if (type(entry) == str) and entry.startswith(YAML_REMOVE):
                blacklist.add(entry[len(YAML_REMOVE):])
            elif (type(entry) == str) and entry.startswith(YAML_PATCH):
                # ignore
                pass
            else:
                extension.append(entry)

    # apply patch
    base = [x for x in orig if x not in blacklist] if orig else []
    return base + extension


def patch_dict(orig, patch):
    base = orig or {}

    # parse patch
    blacklist = set()
    replace = {}
    overwrite = {}
    for key, value in patch.items():
        if value is not None:
            if key.startswith(YAML_REMOVE):
                blacklist.add(key[len(YAML_REMOVE):])
            elif value == YAML_REMOVE:
                blacklist.add(key)
            elif key == YAML_PATCH:
                # ignore, important to avoid empty keys
                pass
            elif key.startswith(YAML_PATCH) and (type(value) == dict):
                tmp_key = key[len(YAML_PATCH):]
                if type(value) == dict:
                    suborig = ...
                    replace[tmp_key] = patch_dict(suborig, value)
                elif type(value) == list:
                    suborig = ...
                    replace[tmp_key] = patch_list(suborig, value)
            else:
                overwrite[key] = value

    # apply patch
    result = dict(
        (k, v)
        for k, v in base.items()
        if k not in blacklist
    )
    result.update(replace)
    result.update(overwrite)
    return result
```
Note the guard `key.startswith(YAML_PATCH) and (type(value) == dict)`: its
inner `elif type(value) == list:` branch is unreachable, because the outer
guard already requires a dict.  A `?+`-prefixed key carrying a *list* value
therefore falls through to the final `else` and is stored as a literal
`'?+...'` key in `overwrite`; the model below reflects that fall-through (the
branch split on the value being a dict), and `patch_list` — reachable in the
source only through that dead branch — is modelled on its own.

YAML trees are modelled by `YVal`; dicts are association lists with distinct
keys (a Python dict cannot hold a key twice) that preserve insertion order,
and `dict.update` keeps the position of updated keys and appends new keys. -/

namespace ConfigMerge

/-- A YAML value: null, bool, int, string, list, or string-keyed dict. -/
inductive YVal where
  | ynull
  | ybool (b : Bool)
  | yint (n : Int)
  | ystr (s : String)
  | ylist (xs : List YVal)
  | ydict (entries : List (String × YVal))

/-- The `?+` key operator. -/
def YAML_PATCH : String := "?+"

/-- The `?-` key operator. -/
def YAML_REMOVE : String := "?-"

/-- `str.startswith`. -/
def strStarts (s p : String) : Bool := p.data.isPrefixOf s.data

/-- `s[n:]`. -/
def strDrop (s : String) (n : Nat) : String := (s.data.drop n).asString

/-- `value == YAML_REMOVE`: only a string equal to `?-` compares equal. -/
def isRemoveMarker : YVal → Bool
  | .ystr s => s == YAML_REMOVE
  | _ => false

/-- `x in blacklist` for a set of strings: only a string member compares
equal. -/
def isStrIn (bl : List String) : YVal → Bool
  | .ystr s => bl.contains s
  | _ => false

/-- The parse loop of `patch_list`: blacklist of `?-`-prefixed strings
(prefix stripped) and the extension list of the remaining non-null,
non-operator entries, in order. -/
def patchListSteps : List YVal → List String × List YVal
  | [] => ([], [])
  | entry :: rest =>
    let br := patchListSteps rest
    match entry with
    | .ynull => br
    | .ystr s =>
      if strStarts s YAML_REMOVE then (strDrop s 2 :: br.1, br.2)
      else if strStarts s YAML_PATCH then br
      else (br.1, .ystr s :: br.2)
    | e => (br.1, e :: br.2)

/-- `patch_list`: keep the original items not blacklisted, then append the
extension. -/
def patchList (orig : Option (List YVal)) (patch : List YVal) : List YVal :=
  let br := patchListSteps patch
  let base := match orig with
    | none => []
    | some l => l.filter (fun x => !(isStrIn br.1 x))
  base ++ br.2

/-- Python `dict.update`: values of existing keys are updated in place,
new keys are appended in the update's order. -/
def pyDictUpdate (d e : List (String × YVal)) : List (String × YVal) :=
  (d.map (fun kv => match e.lookup kv.1 with
    | some v => (kv.1, v)
    | none => kv))
  ++ e.filter (fun kv => !((d.map Prod.fst).contains kv.1))

mutual

/-- `patch_dict`: parse the patch into blacklist / replace / overwrite, then
apply them to the base in that order. -/
def patchDict (orig : Option (List (String × YVal))) (patch : List (String × YVal)) :
    List (String × YVal) :=
  let base := match orig with
    | none => []
    | some d => d
  let bro := patchSteps base patch
  let result := base.filter (fun kv => !(bro.1.contains kv.1))
  pyDictUpdate (pyDictUpdate result bro.2.1) bro.2.2

/-- The parse loop of `patch_dict`: returns
`(blacklist, replace, overwrite)`.  For a dict value under a `?+` key the
subtree is patched recursively; every other non-null value under a `?+` key
— in particular a *list* — falls through to `overwrite` under its literal
prefixed key, mirroring the source's dead list branch. -/
def patchSteps (base : List (String × YVal)) :
    List (String × YVal) → List String × List (String × YVal) × List (String × YVal)
  | [] => ([], [], [])
  | (key, value) :: rest =>
    let br := patchSteps base rest
    match value with
    | .ynull => br
    | .ydict sub =>
      if strStarts key YAML_REMOVE then (strDrop key 2 :: br.1, br.2.1, br.2.2)
      else if key = YAML_PATCH then br
      else if strStarts key YAML_PATCH then
        let tmp := strDrop key 2
        let suborig := match base.lookup tmp with
          | some (.ydict d) => some d
          | _ => none
        (br.1, (tmp, .ydict (patchDict suborig sub)) :: br.2.1, br.2.2)
      else (br.1, br.2.1, (key, .ydict sub) :: br.2.2)
    | v =>
      if strStarts key YAML_REMOVE then (strDrop key 2 :: br.1, br.2.1, br.2.2)
      else if isRemoveMarker v then (key :: br.1, br.2.1, br.2.2)
      else if key = YAML_PATCH then br
      else (br.1, br.2.1, (key, v) :: br.2.2)

end

/-- C8: evaluation at the decisive inputs.  `?+` with a dict value patches
the subtree and `?-` removes keys/items as claimed, but a `?+` key with a
*list* value does not patch the list under the unprefixed key — the literal
key `?+a` is stored with the list as its value (the source's list-patching
branch is dead code), contradicting the claim. -/
theorem patchDict_list_branch_dead :
    patchDict (some [("a", .ydict [("x", .yint 1)])]) [("?+a", .ydict [("y", .yint 2)])]
      = [("a", .ydict [("x", .yint 1), ("y", .yint 2)])]
    ∧ patchDict (some [("a", .yint 1), ("b", .yint 2)]) [("?-a", .ybool true)]
      = [("b", .yint 2)]
    ∧ patchDict (some [("a", .yint 1)]) [("a", .ystr "?-")] = []
    ∧ patchList (some [.ystr "x", .ystr "y"]) [.ystr "?-x", .ystr "z"]
      = [.ystr "y", .ystr "z"]
    ∧ patchDict (some [("a", .ylist [.ystr "x"])]) [("?+a", .ylist [.ystr "y"])]
      = [("a", .ylist [.ystr "x"]), ("?+a", .ylist [.ystr "y"])]
    ∧ patchDict (some [("a", .ylist [.ystr "x"])]) [("?+a", .ylist [.ystr "y"])]
      ≠ [("a", .ylist [.ystr "x", .ystr "y"])] := by
  refine ⟨?_, ?_, ?_, ?_, ?_, ?_⟩ <;>
    simp [patchDict, patchSteps, patchList, patchListSteps, pyDictUpdate, strStarts,
      strDrop, List.asString, isRemoveMarker, isStrIn, List.lookup, YAML_PATCH, YAML_REMOVE]

end ConfigMerge

/-! ## Trace-log analysis (`analyze_trace`, `RE_TRACELINE`, `TARGET_MAP`)

From the source:
```
RE_TRACELINE = re.compile(r"""
    ^
    \d+                    # PID (dropped)
    \s+
    (?P<func> \w+ )        # function
    \(
    (?P<args> [^)]* )      # arguments
    \) \s* = \s*
    [0-9-]+                # status code (dropped)
                           # additional infos (dropped)
    """, re.VERBOSE)

def analyze_trace(tracefile):
    matches = (
        RE_TRACELINE.search(l)
        for l in tracefile
    )
    parsed = (
        (m.group('func'), m.group('args').split(', '))
        for m in matches
        if m
    )
    targets = (
        os.path.abspath(args[TARGET_MAP[func]].replace('"', ''))
        for func, args in parsed
        if func in TARGET_MAP
    )
    return set(
        os.path.relpath(t)
        for t in targets
        if os.path.commonprefix([CONFIG['basedir'], t]) == CONFIG['basedir']
    )
```
The regex is anchored at the start (`^`, no MULTILINE) and each character
class is disjoint from its successor, so a maximal-munch scan implements
`search` exactly.  `args[i]` raises `IndexError` when the comma-split
argument blob is too short; the generator pipeline propagates it out of
`analyze_trace`, modelled by the `Except` layer.  `os.path` functions follow
CPython's `posixpath`: `abspath` resolves against the process working
directory `cwd`, `commonprefix` is *character-wise* (not component-wise),
and `relpath` is relative to `cwd` — not to `basedir`.  `\w`/`\s`/`\d` are
modelled over ASCII, which covers every name `strace` emits. -/

namespace Trace

/-- Python `\s` (ASCII). -/
def pyIsSpace (c : Char) : Bool :=
  c == ' ' || c == '\t' || c == '\n' || c == '\r' || c == '\x0b' || c == '\x0c'

/-- Python `\d`. -/
def pyIsDigit (c : Char) : Bool := '0' ≤ c && c ≤ '9'

/-- Python `\w` (ASCII). -/
def pyIsWord (c : Char) : Bool := c.isAlpha || pyIsDigit c || c == '_'

/-- `RE_TRACELINE.search(l)`: on success returns the `func` and raw `args`
captures. -/
def parseTraceLine (l : List Char) : Option (List Char × List Char) :=
  let pidR := l.span pyIsDigit
  if pidR.1 = [] then none else
  let spR := pidR.2.span pyIsSpace
  if spR.1 = [] then none else
  let funcR := spR.2.span pyIsWord
  if funcR.1 = [] then none else
  match funcR.2 with
  | '(' :: r4 =>
    let argsR := r4.span (fun c => c != ')')
    match argsR.2 with
    | ')' :: r6 =>
      let sp2 := r6.span pyIsSpace
      match sp2.2 with
      | '=' :: r8 =>
        let sp3 := r8.span pyIsSpace
        let st := sp3.2.span (fun c => pyIsDigit c || c == '-')
        if st.1 = [] then none else some (funcR.1, argsR.1)
      | _ => none
    | _ => none
  | _ => none

/-- The fixed syscall table, mapping each recognized function to the index of
its path argument. -/
def TARGET_MAP : List (List Char × Nat) :=
  [("access".data, 0), ("execve".data, 0), ("getcwd".data, 0), ("lstat".data, 0),
   ("mkdir".data, 0), ("open".data, 0), ("openat".data, 1), ("readlink".data, 0),
   ("stat".data, 0), ("unlink".data, 0)]

/-- Python `args.split(', ')`. -/
def splitCommaSpace : List Char → List (List Char)
  | ',' :: ' ' :: rest => [] :: splitCommaSpace rest
  | c :: rest =>
    match splitCommaSpace rest with
    | [] => [[c]]
    | g :: gs => (c :: g) :: gs
  | [] => [[]]

/-- Python `path.split('/')`. -/
def splitSlash : List Char → List (List Char)
  | '/' :: rest => [] :: splitSlash rest
  | c :: rest =>
    match splitSlash rest with
    | [] => [[c]]
    | g :: gs => (c :: g) :: gs
  | [] => [[]]

/-- Python `'/'.join`. -/
def joinSlash : List (List Char) → List Char
  | [] => []
  | [x] => x
  | x :: xs => x ++ '/' :: joinSlash xs

/-- The component loop of `posixpath.normpath`. -/
def normLoop (initialSlashes : Nat) : List (List Char) → List (List Char) → List (List Char)
  | acc, [] => acc
  | acc, comp :: rest =>
    if comp = [] ∨ comp = ['.'] then normLoop initialSlashes acc rest
    else if ¬ comp = ['.', '.'] ∨ (initialSlashes = 0 ∧ acc = [])
        ∨ (¬ acc = [] ∧ acc.getLast? = some ['.', '.'])
    then normLoop initialSlashes (acc ++ [comp]) rest
    else if ¬ acc = [] then normLoop initialSlashes acc.dropLast rest
    else normLoop initialSlashes acc rest

/-- `posixpath.normpath`. -/
def pyNormPath (p : List Char) : List Char :=
  if p = [] then ['.']
  else
    let initialSlashes : Nat :=
      if p.take 1 = ['/'] then
        if p.take 2 = ['/', '/'] ∧ ¬ p.take 3 = ['/', '/', '/'] then 2 else 1
      else 0
    let newComps := normLoop initialSlashes [] (splitSlash p)
    let joined := List.replicate initialSlashes '/' ++ joinSlash newComps
    if joined = [] then ['.'] else joined

/-- `posixpath.join(cwd, p)` for a relative `p` (the only case `abspath`
uses). -/
def pyJoinRel (cwd p : List Char) : List Char :=
  if cwd = [] ∨ cwd.getLast? = some '/' then cwd ++ p else cwd ++ '/' :: p

/-- `posixpath.abspath` against the working directory `cwd`. -/
def pyAbsPath (cwd p : List Char) : List Char :=
  if p.take 1 = ['/'] then pyNormPath p else pyNormPath (pyJoinRel cwd p)

/-- `os.path.commonprefix` on two strings: the longest common *character*
prefix. -/
def commonPref : List Char → List Char → List Char
  | a :: as, b :: bs => if a = b then a :: commonPref as bs else []
  | _, _ => []

/-- Length of the common component prefix (the `commonprefix` call inside
`posixpath.relpath`, which operates on component lists). -/
def commonCount : List (List Char) → List (List Char) → Nat
  | a :: as, b :: bs => if a = b then commonCount as bs + 1 else 0
  | _, _ => 0

/-- `posixpath.relpath(p)` with the default start, i.e. relative to the
working directory `cwd`. -/
def pyRelPath (cwd p : List Char) : List Char :=
  let startList := (splitSlash (pyAbsPath cwd ['.'])).filter (fun x => ¬ x = [])
  let pathList := (splitSlash (pyAbsPath cwd p)).filter (fun x => ¬ x = [])
  let i := commonCount startList pathList
  let relList := List.replicate (startList.length - i) ['.', '.'] ++ pathList.drop i
  if relList = [] then ['.'] else joinSlash relList

/-- One line's contribution to the `targets` generator: `ok none` when the
regex does not match or the syscall is unknown (the line is filtered out),
`ok (some t)` with the absolutized, quote-stripped path otherwise, and
`error` for the `IndexError` on a too-short argument list. -/
def lineTarget (cwd : List Char) (l : List Char) : Except Unit (Option (List Char)) :=
  match parseTraceLine l with
  | none => .ok none
  | some fa =>
    match TARGET_MAP.lookup fa.1 with
    | none => .ok none
    | some i =>
      match (splitCommaSpace fa.2)[i]? with
      | none => .error ()
      | some a => .ok (some (pyAbsPath cwd (a.filter (fun c => c != '"'))))

/-- Run `lineTarget` over the whole trace, propagating the first
`IndexError`. -/
def collectTargets (cwd : List Char) : List (List Char) → Except Unit (List (Option (List Char)))
  | [] => .ok []
  | l :: rest =>
    match lineTarget cwd l, collectTargets cwd rest with
    | .error e, _ => .error e
    | .ok _, .error e => .error e
    | .ok o, .ok os => .ok (o :: os)

/-- `analyze_trace`: the set of `relpath`-ed targets whose character-wise
common prefix with `basedir` is `basedir` itself; `none` when an
`IndexError` escapes. -/
def analyzeTrace (basedir cwd : List Char) (lines : List (List Char)) :
    Option (Finset (List Char)) :=
  match collectTargets cwd lines with
  | .error _ => none
  | .ok opts =>
    let targets := opts.filterMap id
    some (((targets.filter (fun t => commonPref basedir t == basedir)).map
      (pyRelPath cwd)).toFinset)

/-- Membership in the collected targets is pointwise over the trace lines. -/
theorem mem_collectTargets (cwd : List Char) :
    ∀ (lines : List (List Char)) (opts : List (Option (List Char))),
    collectTargets cwd lines = .ok opts →
    ∀ t, t ∈ opts.filterMap id ↔ ∃ l ∈ lines, lineTarget cwd l = .ok (some t) := by
  intro lines
  induction lines with
  | nil =>
    intro opts h t
    cases h
    simp
  | cons l rest ih =>
    intro opts h t
    rw [collectTargets] at h
    match hl : lineTarget cwd l, hr : collectTargets cwd rest with
    | .error e, _ => rw [hl] at h; cases h
    | .ok o, .error e => rw [hl, hr] at h; cases h
    | .ok o, .ok os =>
      rw [hl, hr] at h
      cases h
      constructor
      · intro hmem
        match o with
        | none =>
          have hmem2 : some t ∈ os := by simpa using hmem
          obtain ⟨l2, hl2, ht⟩ := (ih os hr t).mp (by simpa using hmem2)
          exact ⟨l2, List.mem_cons_of_mem l hl2, ht⟩
        | some v =>
          have hmem2 : t = v ∨ some t ∈ os := by simpa using hmem
          rcases hmem2 with hv | hv
          · exact ⟨l, List.mem_cons_self l rest, by rw [hl, hv]⟩
          · obtain ⟨l2, hl2, ht⟩ := (ih os hr t).mp (by simpa using hv)
            exact ⟨l2, List.mem_cons_of_mem l hl2, ht⟩
      · rintro ⟨l2, hl2, ht⟩
        rcases List.mem_cons.mp hl2 with h2 | h2
        · subst h2
          rw [ht] at hl
          cases hl
          simp
        · have hin := (ih os hr t).mpr ⟨l2, h2, ht⟩
          have hsome : some t ∈ os := by simpa using hin
          match o with
          | none => simpa using hsome
          | some v => simp [hsome]

/-- C3 (amended): when no `IndexError` escapes, `analyze_trace` admits
exactly those extracted per-line paths whose longest character-wise common
prefix with `basedir` equals `basedir`, each returned as `relpath` against
the *working directory* (which coincides with the project root only in the
default configuration `basedir = abspath(os.getcwd())`); lines the regex
rejects, syscalls outside the table, and out-of-tree paths contribute
nothing. -/
theorem analyzeTrace_spec (basedir cwd : List Char) (lines : List (List Char))
    (res : Finset (List Char)) (h : analyzeTrace basedir cwd lines = some res) :
    (∀ r, r ∈ res ↔ ∃ l ∈ lines, ∃ t, lineTarget cwd l = .ok (some t)
      ∧ commonPref basedir t = basedir ∧ r = pyRelPath cwd t)
    ∧ (∀ l, parseTraceLine l = none → analyzeTrace basedir cwd (l :: lines) = some res)
    ∧ (∀ l fa, parseTraceLine l = some fa → TARGET_MAP.lookup fa.1 = none →
        analyzeTrace basedir cwd (l :: lines) = some res)
    ∧ (∀ l t, lineTarget cwd l = .ok (some t) → ¬ commonPref basedir t = basedir →
        analyzeTrace basedir cwd (l :: lines) = some res) := by
  rw [analyzeTrace] at h
  match hc : collectTargets cwd lines with
  | .error e => rw [hc] at h; cases h
  | .ok opts =>
    rw [hc] at h
    injection h with h
    subst h
    refine ⟨?_, ?_, ?_, ?_⟩
    · intro r
      rw [List.mem_toFinset, List.mem_map]
      constructor
      · rintro ⟨t, hmem, hrel⟩
        rw [List.mem_filter] at hmem
        obtain ⟨hfm, hpref⟩ := hmem
        obtain ⟨l, hl, hlt⟩ := (mem_collectTargets cwd lines opts hc t).mp hfm
        exact ⟨l, hl, t, hlt, by simpa using hpref, hrel.symm⟩
      · rintro ⟨l, hl, t, hlt, hpref, hrel⟩
        refine ⟨t, ?_, hrel.symm⟩
        rw [List.mem_filter]
        exact ⟨(mem_collectTargets cwd lines opts hc t).mpr ⟨l, hl, hlt⟩, by simpa using hpref⟩
    · intro l hparse
      have hlt : lineTarget cwd l = .ok none := by simp [lineTarget, hparse]
      rw [analyzeTrace, collectTargets, hlt, hc]
      simp
    · intro l fa hparse hfunc
      have hlt : lineTarget cwd l = .ok none := by simp [lineTarget, hparse, hfunc]
      rw [analyzeTrace, collectTargets, hlt, hc]
      simp
    · intro l t hlt hpref
      rw [analyzeTrace, collectTargets, hlt, hc]
      simp only [List.filterMap_cons, id, Option.some.injEq, List.filter_cons]
      rw [if_neg (by simpa using hpref)]

/-- Witness for C3 (amended) at a concrete trace: with `basedir = cwd = /p`,
the line `7 stat("/p/x") = 0` admits `/p/x` and returns it as `x`. -/
theorem analyzeTrace_spec_witness :
    ∃ l ∈ [("7 stat(\"/p/x\") = 0").data], ∃ t,
      lineTarget "/p".data l = .ok (some t)
      ∧ commonPref "/p".data t = "/p".data ∧ "x".data = pyRelPath "/p".data t :=
  ((analyzeTrace_spec "/p".data "/p".data [("7 stat(\"/p/x\") = 0").data]
    {"x".data} (by decide)).1 "x".data).mp (by decide)

/-- C3 counterexample: with the project root configured to `/home` but the
process working directory at `/home/u`, the admitted path `/home/a` is
returned as `../a` — relative to the working directory — whereas its form
relative to the project root would be `a`.  The claim's "returned relative
to the project root" fails for any `basedir ≠ cwd`. -/
theorem analyzeTrace_not_relative_to_basedir :
    analyzeTrace "/home".data "/home/u".data [("1 open(\"/home/a\") = 0").data]
      = some {"../a".data}
    ∧ pyRelPath "/home".data "/home/a".data = "a".data
    ∧ ¬ ("a".data ∈ ({"../a".data} : Finset (List Char))) := by
  refine ⟨by decide, by decide, by decide⟩

end Trace

/-! ## Persistent state (`save_state`, `restore_state`, `Action.to_json`,
`Action.from_json`)

From the source:
```
    def to_json(self):
        attributes = (
            (a, getattr(self, a))
            for a in dir(self)
            if not a.startswith('__')
        )
        state = dict(
            (k, v)
            for k, v in attributes
            if type(v) in [
                bool, bytearray, bytes, complex, dict, float,
                frozenset, int, list, set, str, tuple
            ]
        )
        del state['deps']
        del state['influences']
        del state['dirty']
        return {
            'id': id(self),
            'type': type(self).__name__,
            'deps': [id(x) for x in self.deps],
            'influences': [id(x) for x in self.influences],
            'dirty': self.dirty,
            'state': state
        }

    def from_json(self, j):
        for name, value in j['state'].items():
            setattr(self, name, value)
        self.deps = set()
        self.influences = set()
        self.dirty = j['dirty']

def restore_state():
    with gzip.open(CONFIG['state'], 'rb') as statefile:
        state = msgpack.unpackb(statefile.read(), encoding='utf-8')
    if 'state_version' not in state \
            or state['state_version'] != STATE_VERSION:
        raise Exception('Incompatible state version!')
    actions = state['actions']
    table = {}
    for j in actions:
        actiontype = globals()[j['type']]
        obj = actiontype.__new__(actiontype)
        obj.from_json(j)
        table[j['id']] = obj
    for j in actions:
        action = table[j['id']]
        action.deps.update(table[y] for y in j['deps'])
        action.influences.update(table[y] for y in j['influences'])
    return set(table.values())

def save_state(actions):
    state = {
        'state_version': STATE_VERSION,
        'actions': [a.to_json() for a in actions]
    }
    ...
```
A node object is its attribute dictionary (`attrs`, the instance state other
than `deps`/`influences`/`dirty`, which `to_json` handles separately) plus
the type name, dirty flag, and edge lists of object ids.  `PyVal` covers the
value types the node classes store: crucially, `None` (`vnone`) has type
`NoneType`, which is *not* in `to_json`'s serializable-type list, so a
`None`-valued attribute is silently dropped from `state` — and `from_json`
then never sets it on the restored object.  The gzip/MessagePack encoding is
a faithful byte transport for this structure (`use_bin_type=True` keeps
`bytes`/`str` apart) and is not modelled byte-level.  Restored objects are
identified with their file ids: `id()` values of distinct live objects are
distinct, and "equality up to node object identity" is exactly equality
after this renaming.  A dangling edge id would raise a `KeyError` in
`table[y]` (`none` here). -/

namespace Persist

/-- A Python value stored in a node attribute: `None`, a bool, an int, a
string, a byte string, or a list of strings (the `ignores` field).  `vnone`
is the value whose type fails `to_json`'s serializable-type test. -/
inductive PyVal where
  | vnone
  | vbool (b : Bool)
  | vint (n : Int)
  | vstr (s : String)
  | vbytes (bs : List Nat)
  | vstrlist (ss : List String)
deriving DecidableEq

/-- `type(v) in [bool, bytearray, bytes, complex, dict, float, frozenset,
int, list, set, str, tuple]` — everything in our value universe except
`NoneType`. -/
def serializableVal : PyVal → Bool
  | .vnone => false
  | _ => true

/-- A live node object: identity (`id(self)`), class name, attribute
dictionary, dirty flag, and edges as sets of object ids. -/
structure PyObj where
  oid : Nat
  ty : String
  attrs : List (String × PyVal)
  dirty : Bool
  deps : List Nat
  infl : List Nat
deriving DecidableEq

/-- One serialized node record. -/
structure JNode where
  jid : Nat
  jty : String
  jdeps : List Nat
  jinfl : List Nat
  jdirty : Bool
  jstate : List (String × PyVal)
deriving DecidableEq

/-- `Action.to_json`: the `state` dict keeps exactly the serializable
attributes. -/
def toJson (o : PyObj) : JNode :=
  ⟨o.oid, o.ty, o.deps, o.infl, o.dirty, o.attrs.filter (fun kv => serializableVal kv.2)⟩

/-- The state-file version tag. -/
def STATE_VERSION : Nat := 2

/-- The serialized state file. -/
structure StateFile where
  stateVersion : Nat
  actions : List JNode
deriving DecidableEq

/-- `save_state`. -/
def saveState (g : List PyObj) : StateFile :=
  ⟨STATE_VERSION, g.map toJson⟩

/-- `actiontype.__new__` followed by `from_json` and the second-pass edge
translation: attributes come from `state`, dirty from the record, edges from
the id lists (resolved through `table`, i.e. kept as ids). -/
def objFromJson (j : JNode) : PyObj :=
  ⟨j.jid, j.jty, j.jstate, j.jdirty, j.jdeps, j.jinfl⟩

/-- `restore_state`: reject a wrong version; resolve every edge id through
the table (a missing id would be a `KeyError`). -/
def restoreState (st : StateFile) : Option (List PyObj) :=
  if st.stateVersion = STATE_VERSION then
    let ids := st.actions.map (fun j => j.jid)
    if st.actions.all (fun j => j.jdeps.all ids.contains && j.jinfl.all ids.contains) then
      some (st.actions.map objFromJson)
    else none
  else none

/-- C2 counterexample: a `FileAction` that has never hashed its file carries
`checksum = None`; `to_json` drops the attribute (its type is `NoneType`),
so the restored node lacks it — the round-trip is *not* the identity on such
graphs. -/
theorem restore_save_drops_none_valued_fields :
    restoreState (saveState [⟨1, "FileAction",
        [("checksum", .vnone), ("path", .vstr "doc.tex")], true, [], []⟩])
      = some [⟨1, "FileAction", [("path", .vstr "doc.tex")], true, [], []⟩]
    ∧ restoreState (saveState [⟨1, "FileAction",
        [("checksum", .vnone), ("path", .vstr "doc.tex")], true, [], []⟩])
      ≠ some [⟨1, "FileAction",
        [("checksum", .vnone), ("path", .vstr "doc.tex")], true, [], []⟩] := by
  refine ⟨by decide, by decide⟩

/-- C2 (amended): for every graph whose node state fields are all
serializable (no `None`-valued checksum or status), with distinct object
ids and edges pointing at graph members, restoring the saved state
reproduces the graph exactly — same identities, state fields, dirty flags,
and dep/influence edges. -/
theorem restore_save_roundtrip (g : List PyObj)
    (hser : ∀ o ∈ g, ∀ kv ∈ o.attrs, serializableVal kv.2 = true)
    (hids : (g.map (fun o => o.oid)).Nodup)
    (hclosed : ∀ o ∈ g, (∀ d ∈ o.deps, d ∈ g.map (fun o2 => o2.oid))
      ∧ (∀ d ∈ o.infl, d ∈ g.map (fun o2 => o2.oid))) :
    restoreState (saveState g) = some g := by
  rw [saveState, restoreState]
  rw [if_pos rfl]
  have hidmap : (g.map toJson).map (fun j => j.jid) = g.map (fun o => o.oid) := by
    rw [List.map_map]
    rfl
  have hall : (g.map toJson).all (fun j =>
      j.jdeps.all ((g.map toJson).map (fun j2 => j2.jid)).contains
        && j.jinfl.all ((g.map toJson).map (fun j2 => j2.jid)).contains) = true := by
    rw [List.all_eq_true]
    intro j hj
    obtain ⟨o, ho, rfl⟩ := List.mem_map.mp hj
    rw [Bool.and_eq_true, List.all_eq_true, List.all_eq_true]
    constructor
    · intro d hd
      rw [hidmap]
      simpa using (hclosed o ho).1 d hd
    · intro d hd
      rw [hidmap]
      simpa using (hclosed o ho).2 d hd
  rw [if_pos hall]
  rw [List.map_map]
  rw [show (objFromJson ∘ toJson) = fun o : PyObj =>
      { o with attrs := o.attrs.filter (fun kv => serializableVal kv.2) } from rfl]
  rw [Option.some_inj]
  have : ∀ o ∈ g,
      { o with attrs := o.attrs.filter (fun kv => serializableVal kv.2) } = o := by
    intro o ho
    have : o.attrs.filter (fun kv => serializableVal kv.2) = o.attrs :=
      List.filter_eq_self.mpr (fun kv hkv => hser o ho kv hkv)
    rw [this]
  calc g.map (fun o : PyObj =>
      { o with attrs := o.attrs.filter (fun kv => serializableVal kv.2) })
      = g.map id := List.map_congr_left this
    _ = g := List.map_id g

/-- Witness for C2 (amended) at a concrete two-node graph with an edge and
fully serializable state. -/
theorem restore_save_roundtrip_witness :
    restoreState (saveState
      [⟨1, "FileAction", [("checksum", .vbytes [7, 9]), ("path", .vstr "doc.tex")],
        false, [], [2]⟩,
       ⟨2, "TexCompileAction",
        [("command", .vstr "lualatex doc.tex"), ("engine", .vstr "luajittex"),
         ("ignores", .vstrlist ["\\.log$", "\\.pdf$"]), ("latex", .vbool true),
         ("output_format", .vstr "pdf"), ("path", .vstr "doc.tex"),
         ("status", .vint 0)], true, [1], []⟩])
      = some
      [⟨1, "FileAction", [("checksum", .vbytes [7, 9]), ("path", .vstr "doc.tex")],
        false, [], [2]⟩,
       ⟨2, "TexCompileAction",
        [("command", .vstr "lualatex doc.tex"), ("engine", .vstr "luajittex"),
         ("ignores", .vstrlist ["\\.log$", "\\.pdf$"]), ("latex", .vbool true),
         ("output_format", .vstr "pdf"), ("path", .vstr "doc.tex"),
         ("status", .vint 0)], true, [1], []⟩] :=
  restore_save_roundtrip _ (by decide) (by decide) (by decide)

end Persist

/-! ## Graph merge (`Action.merge`, `Action.add_dependency`)

From the source:
```
    def add_dependency(self, other):
        self.deps.add(other)
        other.influences.add(self)

    def merge(self, other):
        self.deps.update(other.deps)
        for dep in other.deps:
            dep.influences.remove(other)
            dep.influences.add(self)

        self.influences.update(other.influences)
        for infl in other.influences:
            infl.deps.remove(other)
            infl.deps.add(self)
```
Node objects are addressed by object ids (`Nat`); `key n` is the node's
identity value (the hash/equality key: a `FileAction`'s path or a
`CommandAction`'s `(command, ignores)` — abstracted to a `Nat`).  A Python
`set` of nodes is modelled as a list of object ids on which every operation
compares *by key*, exactly as Python sets compare by `__eq__`/`__hash__`:
`add` is a no-op when an equal element is present, `remove` deletes the
stored element equal to its argument (it raises `KeyError` when none
exists — the theorems below apply in states where the element is present,
which invariant 1 guarantees), and `update` folds `add` over the other set.
`merge(c, d)` is the sequential composition of its four statements; inside
each `for` loop every iteration writes a different counterparty's edge set,
so the loop is a simultaneous per-node update. -/

namespace Merge

/-- The object heap: each node's identity key and its `deps`/`influences`
sets (lists of object ids with key-based set semantics). -/
structure GState where
  key : Nat → Nat
  deps : Nat → List Nat
  infl : Nat → List Nat

/-- Python `set.add` under key equality. -/
def pyAdd (k : Nat → Nat) (s : List Nat) (x : Nat) : List Nat :=
  if s.any (fun y => k y == k x) then s else s ++ [x]

/-- Python `set.remove` under key equality (total here; the caller's
invariants put the removed element in the set). -/
def pyRemove (k : Nat → Nat) (s : List Nat) (x : Nat) : List Nat :=
  s.filter (fun y => !(k y == k x))

/-- Python `set.update`: add each element of `t`. -/
def pyUpdate (k : Nat → Nat) (s t : List Nat) : List Nat :=
  t.foldl (pyAdd k) s

/-- `self.deps.update(other.deps)`. -/
def mergeStepA (g : GState) (c d : Nat) : GState :=
  { g with deps := fun n =>
      if n = c then pyUpdate g.key (g.deps c) (g.deps d) else g.deps n }

/-- `for dep in other.deps: dep.influences.remove(other); dep.influences.add(self)`. -/
def mergeStepB (g : GState) (c d : Nat) : GState :=
  { g with infl := fun n =>
      if n ∈ g.deps d then pyAdd g.key (pyRemove g.key (g.infl n) d) c else g.infl n }

/-- `self.influences.update(other.influences)`. -/
def mergeStepC (g : GState) (c d : Nat) : GState :=
  { g with infl := fun n =>
      if n = c then pyUpdate g.key (g.infl c) (g.infl d) else g.infl n }

/-- `for infl in other.influences: infl.deps.remove(other); infl.deps.add(self)`. -/
def mergeStepD (g : GState) (c d : Nat) : GState :=
  { g with deps := fun n =>
      if n ∈ g.infl d then pyAdd g.key (pyRemove g.key (g.deps n) d) c else g.deps n }

/-- `Action.merge(c, d)`: the four statements in source order. -/
def merge (g : GState) (c d : Nat) : GState :=
  mergeStepD (mergeStepC (mergeStepB (mergeStepA g c d) c d) c d) c d

/-- Membership after `remove`. -/
theorem mem_pyRemove (k : Nat → Nat) (s : List Nat) (x y : Nat) :
    y ∈ pyRemove k s x ↔ y ∈ s ∧ ¬ k y = k x := by
  simp [pyRemove]

/-- `add` only grows the set. -/
theorem mem_pyAdd_of_mem (k : Nat → Nat) (s : List Nat) (x y : Nat) (h : y ∈ s) :
    y ∈ pyAdd k s x := by
  rw [pyAdd]
  split
  · exact h
  · exact List.mem_append_left _ h

/-- `add` introduces nothing but its argument. -/
theorem mem_pyAdd_elim (k : Nat → Nat) (s : List Nat) (x y : Nat)
    (h : y ∈ pyAdd k s x) : y ∈ s ∨ y = x := by
  rw [pyAdd] at h
  revert h
  split
  · exact fun h => Or.inl h
  · intro h
    rcases List.mem_append.mp h with h1 | h1
    · exact Or.inl h1
    · exact Or.inr (List.mem_singleton.mp h1)

/-- `update` only grows the set. -/
theorem mem_pyUpdate_of_mem (k : Nat → Nat) :
    ∀ (t s : List Nat) (y : Nat), y ∈ s → y ∈ pyUpdate k s t := by
  intro t
  induction t with
  | nil => intro s y h; exact h
  | cons a t2 ih =>
    intro s y h
    exact ih (pyAdd k s a) y (mem_pyAdd_of_mem k s a y h)

/-- `update` introduces nothing outside the two sets. -/
theorem mem_pyUpdate_elim (k : Nat → Nat) :
    ∀ (t s : List Nat) (y : Nat), y ∈ pyUpdate k s t → y ∈ s ∨ y ∈ t := by
  intro t
  induction t with
  | nil => intro s y h; exact Or.inl h
  | cons a t2 ih =>
    intro s y h
    rcases ih (pyAdd k s a) y h with h1 | h1
    · rcases mem_pyAdd_elim k s a y h1 with h2 | h2
      · exact Or.inl h2
      · exact Or.inr (by rw [h2]; exact List.mem_cons_self a t2)
    · exact Or.inr (List.mem_cons_of_mem a h1)

/-- An element of `t` whose key collides with nothing else in either set
survives into `update s t` (as the very object, not merely up to key). -/
theorem mem_pyUpdate_of_uni (k : Nat → Nat) :
    ∀ (t s : List Nat) (x : Nat), x ∈ t →
    (∀ y, y ∈ s ∨ y ∈ t → k y = k x → y = x) →
    x ∈ pyUpdate k s t := by
  intro t
  induction t with
  | nil => intro s x h; cases h
  | cons a t2 ih =>
    intro s x hx huni
    rcases List.mem_cons.mp hx with h1 | h1
    · subst h1
      show x ∈ pyUpdate k (pyAdd k s x) t2
      apply mem_pyUpdate_of_mem
      simp only [pyAdd]
      split
      · rename_i hany
        obtain ⟨y, hy, hky⟩ := List.any_eq_true.mp hany
        have := huni y (Or.inl hy) (by simpa using hky)
        rwa [this] at hy
      · exact List.mem_append_right _ (List.mem_singleton.mpr rfl)
    · show x ∈ pyUpdate k (pyAdd k s a) t2
      apply ih (pyAdd k s a) x h1
      intro y hy hky
      refine huni y ?_ hky
      rcases hy with hy | hy
      · rcases mem_pyAdd_elim k s a y hy with h2 | h2
        · exact Or.inl h2
        · exact Or.inr (by rw [h2]; exact List.mem_cons_self a t2)
      · exact Or.inr (List.mem_cons_of_mem a hy)

/-- After removing every key-collider, `add` really appends the element. -/
theorem pyAdd_pyRemove (k : Nat → Nat) (s : List Nat) (c d : Nat)
    (hk : k c = k d) :
    pyAdd k (pyRemove k s d) c = pyRemove k s d ++ [c] := by
  rw [pyAdd, if_neg]
  intro hany
  obtain ⟨y, hy, hky⟩ := List.any_eq_true.mp hany
  rw [mem_pyRemove] at hy
  exact hy.2 (by rw [← hk]; simpa using hky)

/-- What `merge` leaves in each node's `deps`: the canonical node holds the
union-by-update; each counterparty formerly influenced by the duplicate has
the duplicate's key removed and the canonical node appended; everyone else
is untouched.  The hypotheses are the merge preconditions: the duplicate is
distinct from the canonical node and the two are not adjacent to the
duplicate itself. -/
theorem merge_deps_eq (g : GState) (c d : Nat) (hcd : ¬ c = d)
    (hdd : ¬ d ∈ g.deps d) (hdi : ¬ d ∈ g.infl d)
    (hcdd : ¬ c ∈ g.deps d) (hcdi : ¬ c ∈ g.infl d) :
    ∀ n, (merge g c d).deps n =
      if n = c then pyUpdate g.key (g.deps c) (g.deps d)
      else if n ∈ g.infl d then pyAdd g.key (pyRemove g.key (g.deps n) d) c
      else g.deps n := by
  have hdc : ¬ d = c := fun h => hcd h.symm
  intro n
  by_cases hnc : n = c
  · subst hnc
    simp [merge, mergeStepA, mergeStepB, mergeStepC, mergeStepD,
      hdd, hdi, hcdd, hcdi, hdc, hcd]
  · by_cases hni : n ∈ g.infl d
    · simp [merge, mergeStepA, mergeStepB, mergeStepC, mergeStepD,
        hdd, hdi, hcdd, hcdi, hdc, hcd, hnc, hni]
    · simp [merge, mergeStepA, mergeStepB, mergeStepC, mergeStepD,
        hdd, hdi, hcdd, hcdi, hdc, hcd, hnc, hni]

/-- The symmetric characterization for `influences`. -/
theorem merge_infl_eq (g : GState) (c d : Nat) (hcd : ¬ c = d)
    (hdd : ¬ d ∈ g.deps d) (hdi : ¬ d ∈ g.infl d)
    (hcdd : ¬ c ∈ g.deps d) (hcdi : ¬ c ∈ g.infl d) :
    ∀ n, (merge g c d).infl n =
      if n = c then pyUpdate g.key (g.infl c) (g.infl d)
      else if n ∈ g.deps d then pyAdd g.key (pyRemove g.key (g.infl n) d) c
      else g.infl n := by
  have hdc : ¬ d = c := fun h => hcd h.symm
  intro n
  by_cases hnc : n = c
  · subst hnc
    simp [merge, mergeStepA, mergeStepB, mergeStepC, mergeStepD,
      hdd, hdi, hcdd, hcdi, hdc, hcd]
  · by_cases hni : n ∈ g.deps d
    · simp [merge, mergeStepA, mergeStepB, mergeStepC, mergeStepD,
        hdd, hdi, hcdd, hcdi, hdc, hcd, hnc, hni]
    · simp [merge, mergeStepA, mergeStepB, mergeStepC, mergeStepD,
        hdd, hdi, hcdd, hcdi, hdc, hcd, hnc, hni]

/-- C1: merging a duplicate into its equal-identity canonical node, in a
graph satisfying the bidirectional invariant, identity uniqueness
(invariant 2, among the surviving nodes) and edge closure, with the usual
merge preconditions (the duplicate is a distinct object not adjacent to
itself or to the canonical node): afterwards the duplicate object is
referenced by no surviving node's `deps` or `influences`; every node
formerly adjacent to the duplicate is adjacent to the canonical node with
the same edge direction (and the canonical node has absorbed the
duplicate's edges); and the bidirectional invariant holds across all
surviving nodes. -/
theorem merge_spec (g : GState) (nodes : List Nat) (c d : Nat)
    (hc : c ∈ nodes) (hd : d ∈ nodes) (hcd : ¬ c = d)
    (hkey : g.key c = g.key d)
    (hbi : ∀ a ∈ nodes, ∀ b ∈ nodes, (b ∈ g.deps a ↔ a ∈ g.infl b))
    (hclosed : ∀ a ∈ nodes, (∀ x ∈ g.deps a, x ∈ nodes) ∧ (∀ x ∈ g.infl a, x ∈ nodes))
    (huniq : ∀ a ∈ nodes, ∀ b ∈ nodes, ¬ a = d → ¬ b = d → g.key a = g.key b → a = b)
    (hdd : ¬ d ∈ g.deps d) (hdi : ¬ d ∈ g.infl d)
    (hcdd : ¬ c ∈ g.deps d) (hcdi : ¬ c ∈ g.infl d)
    (hdcd : ¬ d ∈ g.deps c) (hdci : ¬ d ∈ g.infl c) :
    (∀ n ∈ nodes, ¬ n = d →
      ¬ d ∈ (merge g c d).deps n ∧ ¬ d ∈ (merge g c d).infl n)
    ∧ (∀ x ∈ g.deps d, x ∈ (merge g c d).deps c ∧ c ∈ (merge g c d).infl x)
    ∧ (∀ x ∈ g.infl d, x ∈ (merge g c d).infl c ∧ c ∈ (merge g c d).deps x)
    ∧ (∀ a ∈ nodes, ∀ b ∈ nodes, ¬ a = d → ¬ b = d →
        (b ∈ (merge g c d).deps a ↔ a ∈ (merge g c d).infl b)) := by
  have hdc : ¬ d = c := fun h => hcd h.symm
  have hdeps := merge_deps_eq g c d hcd hdd hdi hcdd hcdi
  have hinfl := merge_infl_eq g c d hcd hdd hdi hcdd hcdi
  have hmemdep : ∀ x ∈ g.deps d, x ∈ nodes ∧ ¬ x = d ∧ ¬ x = c := fun x hx =>
    ⟨(hclosed d hd).1 x hx, fun h => hdd (h ▸ hx), fun h => hcdd (h ▸ hx)⟩
  have hmeminf : ∀ x ∈ g.infl d, x ∈ nodes ∧ ¬ x = d ∧ ¬ x = c := fun x hx =>
    ⟨(hclosed d hd).2 x hx, fun h => hdi (h ▸ hx), fun h => hcdi (h ▸ hx)⟩
  have hkne : ∀ a ∈ nodes, ¬ a = d → ¬ a = c → ¬ g.key a = g.key d := by
    intro a ha had hac hk
    exact hac (huniq a ha c hc had hcd (by rw [hk, hkey]))
  have huni_dep : ∀ x ∈ g.deps d, ∀ y, (y ∈ g.deps c ∨ y ∈ g.deps d) →
      g.key y = g.key x → y = x := by
    intro x hx y hy hk
    obtain ⟨hxn, hxd, _⟩ := hmemdep x hx
    have hyn : y ∈ nodes := by
      rcases hy with hy | hy
      exacts [(hclosed c hc).1 y hy, (hclosed d hd).1 y hy]
    have hyd : ¬ y = d := by
      rcases hy with hy | hy
      exacts [fun h => hdcd (h ▸ hy), fun h => hdd (h ▸ hy)]
    exact huniq y hyn x hxn hyd hxd hk
  have huni_inf : ∀ x ∈ g.infl d, ∀ y, (y ∈ g.infl c ∨ y ∈ g.infl d) →
      g.key y = g.key x → y = x := by
    intro x hx y hy hk
    obtain ⟨hxn, hxd, _⟩ := hmeminf x hx
    have hyn : y ∈ nodes := by
      rcases hy with hy | hy
      exacts [(hclosed c hc).2 y hy, (hclosed d hd).2 y hy]
    have hyd : ¬ y = d := by
      rcases hy with hy | hy
      exacts [fun h => hdci (h ▸ hy), fun h => hdi (h ▸ hy)]
    exact huniq y hyn x hxn hyd hxd hk
  have hupd_dep : ∀ x ∈ g.deps d, x ∈ pyUpdate g.key (g.deps c) (g.deps d) := by
    intro x hx
    exact mem_pyUpdate_of_uni g.key (g.deps d) (g.deps c) x hx
      (fun y hy hk => huni_dep x hx y hy hk)
  have hupd_inf : ∀ x ∈ g.infl d, x ∈ pyUpdate g.key (g.infl c) (g.infl d) := by
    intro x hx
    exact mem_pyUpdate_of_uni g.key (g.infl d) (g.infl c) x hx
      (fun y hy hk => huni_inf x hx y hy hk)
  have hupd_dep_iff : ∀ y, ¬ y ∈ g.deps d →
      (y ∈ pyUpdate g.key (g.deps c) (g.deps d) ↔ y ∈ g.deps c) := by
    intro y hy
    constructor
    · intro h
      rcases mem_pyUpdate_elim g.key (g.deps d) (g.deps c) y h with h1 | h1
      · exact h1
      · exact absurd h1 hy
    · exact mem_pyUpdate_of_mem g.key (g.deps d) (g.deps c) y
  have hupd_inf_iff : ∀ y, ¬ y ∈ g.infl d →
      (y ∈ pyUpdate g.key (g.infl c) (g.infl d) ↔ y ∈ g.infl c) := by
    intro y hy
    constructor
    · intro h
      rcases mem_pyUpdate_elim g.key (g.infl d) (g.infl c) y h with h1 | h1
      · exact h1
      · exact absurd h1 hy
    · exact mem_pyUpdate_of_mem g.key (g.infl d) (g.infl c) y
  have hmem_addrem : ∀ (s : List Nat) (y : Nat), ¬ y = c → ¬ g.key y = g.key d →
      (y ∈ pyAdd g.key (pyRemove g.key s d) c ↔ y ∈ s) := by
    intro s y hyc hyk
    rw [pyAdd_pyRemove g.key s c d hkey, List.mem_append]
    constructor
    · rintro (h | h)
      · exact ((mem_pyRemove g.key s d y).mp h).1
      · exact absurd (List.mem_singleton.mp h) hyc
    · intro h
      exact Or.inl ((mem_pyRemove g.key s d y).mpr ⟨h, hyk⟩)
  have hc_addrem : ∀ s : List Nat, c ∈ pyAdd g.key (pyRemove g.key s d) c := by
    intro s
    rw [pyAdd_pyRemove g.key s c d hkey]
    exact List.mem_append_right _ (List.mem_singleton.mpr rfl)
  have hd_addrem : ∀ s : List Nat, ¬ d ∈ pyAdd g.key (pyRemove g.key s d) c := by
    intro s h
    rw [pyAdd_pyRemove g.key s c d hkey, List.mem_append] at h
    rcases h with h | h
    · exact ((mem_pyRemove g.key s d d).mp h).2 rfl
    · exact hdc (List.mem_singleton.mp h)
  refine ⟨?_, ?_, ?_, ?_⟩
  · -- the duplicate is referenced by no surviving node
    intro n hn hnd
    constructor
    · rw [hdeps n]
      by_cases hnc : n = c
      · rw [hnc, if_pos rfl]
        intro h
        rcases mem_pyUpdate_elim g.key (g.deps d) (g.deps c) d h with h1 | h1
        · exact hdcd h1
        · exact hdd h1
      · rw [if_neg hnc]
        by_cases hni : n ∈ g.infl d
        · rw [if_pos hni]
          exact hd_addrem (g.deps n)
        · rw [if_neg hni]
          intro h
          exact hni ((hbi n hn d hd).mp h)
    · rw [hinfl n]
      by_cases hnc : n = c
      · rw [hnc, if_pos rfl]
        intro h
        rcases mem_pyUpdate_elim g.key (g.infl d) (g.infl c) d h with h1 | h1
        · exact hdci h1
        · exact hdi h1
      · rw [if_neg hnc]
        by_cases hni : n ∈ g.deps d
        · rw [if_pos hni]
          exact hd_addrem (g.infl n)
        · rw [if_neg hni]
          intro h
          exact hni ((hbi d hd n hn).mpr h)
  · -- the canonical node absorbs the duplicate's deps, bidirectionally
    intro x hx
    obtain ⟨hxn, hxd, hxc⟩ := hmemdep x hx
    constructor
    · rw [hdeps c, if_pos rfl]
      exact hupd_dep x hx
    · rw [hinfl x, if_neg hxc, if_pos hx]
      exact hc_addrem (g.infl x)
  · -- and the duplicate's influences, bidirectionally
    intro x hx
    obtain ⟨hxn, hxd, hxc⟩ := hmeminf x hx
    constructor
    · rw [hinfl c, if_pos rfl]
      exact hupd_inf x hx
    · rw [hdeps x, if_neg hxc, if_pos hx]
      exact hc_addrem (g.deps x)
  · -- the bidirectional invariant survives on the remaining nodes
    intro a ha b hb had hbd
    rw [hdeps a, hinfl b]
    by_cases hac : a = c <;> by_cases hbc : b = c
    · rw [hac, hbc, if_pos rfl, if_pos rfl]
      constructor
      · intro h
        rcases mem_pyUpdate_elim g.key (g.deps d) (g.deps c) c h with h1 | h1
        · exact mem_pyUpdate_of_mem g.key (g.infl d) (g.infl c) c ((hbi c hc c hc).mp h1)
        · exact absurd h1 hcdd
      · intro h
        rcases mem_pyUpdate_elim g.key (g.infl d) (g.infl c) c h with h1 | h1
        · exact mem_pyUpdate_of_mem g.key (g.deps d) (g.deps c) c ((hbi c hc c hc).mpr h1)
        · exact absurd h1 hcdi
    · rw [hac, if_pos rfl, if_neg hbc]
      by_cases hbdep : b ∈ g.deps d
      · rw [if_pos hbdep]
        exact iff_of_true (hupd_dep b hbdep) (hc_addrem (g.infl b))
      · rw [if_neg hbdep]
        rw [hupd_dep_iff b hbdep]
        exact hbi c hc b hb
    · rw [hbc, if_neg hac, if_pos rfl]
      by_cases hain : a ∈ g.infl d
      · rw [if_pos hain]
        exact iff_of_true (hc_addrem (g.deps a)) (hupd_inf a hain)
      · rw [if_neg hain]
        rw [hupd_inf_iff a hain]
        exact hbi a ha c hc
    · rw [if_neg hac, if_neg hbc]
      have hbk : ¬ g.key b = g.key d := hkne b hb hbd hbc
      have hak : ¬ g.key a = g.key d := hkne a ha had hac
      by_cases hain : a ∈ g.infl d <;> by_cases hbdep : b ∈ g.deps d
      · rw [if_pos hain, if_pos hbdep,
          hmem_addrem (g.deps a) b hbc hbk, hmem_addrem (g.infl b) a hac hak]
        exact hbi a ha b hb
      · rw [if_pos hain, if_neg hbdep, hmem_addrem (g.deps a) b hbc hbk]
        exact hbi a ha b hb
      · rw [if_neg hain, if_pos hbdep, hmem_addrem (g.infl b) a hac hak]
        exact hbi a ha b hb
      · rw [if_neg hain, if_neg hbdep]
        exact hbi a ha b hb

/-- A three-node instance for the witness: nodes `0` (canonical) and `1`
(duplicate) share identity key `0`; node `2` is a dependency of the
duplicate. -/
def witnessG : GState :=
  ⟨fun n => if n = 2 then 1 else 0,
   fun n => if n = 1 then [2] else [],
   fun n => if n = 2 then [1] else []⟩

/-- Witness for C1 at `witnessG`: after `merge 0 1` the canonical node has
taken over the edge to `2`, bidirectionally, and `2` no longer references
the duplicate. -/
theorem merge_spec_witness :
    2 ∈ (merge witnessG 0 1).deps 0 ∧ 0 ∈ (merge witnessG 0 1).infl 2
      ∧ ¬ 1 ∈ (merge witnessG 0 1).infl 2 := by
  have h := merge_spec witnessG [0, 1, 2] 0 1 (by decide) (by decide) (by decide)
    (by decide) (by decide) (by decide) (by decide) (by decide) (by decide)
    (by decide) (by decide) (by decide) (by decide)
  exact ⟨(h.2.1 2 (by decide)).1, (h.2.1 2 (by decide)).2,
    (h.1 2 (by decide) (by decide)).2⟩

end Merge

/-! ## Rule table and `detect_actions` (frame behaviour)

From the source:
```
def detect_actions(path, auto_only=True):
    commands = CONFIG['command_map'].items()
    ok_auto = (
        not auto_only or (('auto' in cmd) and (cmd['auto'] is True))
        for ext, cmd in commands
    )
    ok_path = (
        bool(re.search(ext, path))
        for ext, cmd in commands
    )
    ok_all = (
        all(t)
        for t in zip(ok_auto, ok_path)
    )
    commands_filtered = (
        cmd
        for (ext, cmd), o in zip(commands, ok_all)
        if o
    )
    ...
    actions = []
    for cmd in commands_filtered:
        actiontype = globals()[cmd['type']]
        args = cmd['args'].copy() if 'args' in cmd else {}
        for key, value in args.items():
            if type(value) == str:
                args[key] = pattern.sub(..., value)
        actions.append(actiontype(**args))
    return actions
```
The aliasing structure is what matters for the frame claim, so the rule
table's argument dicts live in an explicit store of cells addressed by
`Nat` references: `cmd['args'].copy()` allocates a fresh cell, the
substitution loop writes only that fresh cell, and the table's own cells
are never written.  Rule argument values are strings (as in the shipped
`command_map`); `globals()[cmd['type']]` resolves the three shipped
`CommandAction` subtypes, whose constructors build the command string
exactly as in the source (an unknown type name, a missing required
argument, an unexpected keyword, or an unsupported engine/format raises —
`none` here).  A rule carries `auto : Option Bool` (`none` when the key is
absent) and `argsRef : Option Nat` (`none` when `args` is absent). -/

namespace Rules

/-- One `command_map` rule: constructor name, reference to its argument
template dict, and the optional `auto` flag. -/
structure Rule where
  rtype : String
  argsRef : Option Nat
  auto : Option Bool
deriving DecidableEq

/-- The store of argument dicts (`cells` below `next` are allocated). -/
structure ArgStore where
  cells : Nat → List (String × String)
  next : Nat

/-- A constructed command node, by its command string and ignore list. -/
structure ActSpec where
  command : String
  ignores : List String
deriving DecidableEq

/-- ASCII `str.lower`. -/
def lowerCh (c : Char) : Char :=
  if 'A' ≤ c ∧ c ≤ 'Z' then Char.ofNat (c.toNat + 32) else c

/-- ASCII `str.lower` on strings. -/
def lowerStr (s : String) : String := (s.data.map lowerCh).asString

/-- Keyword-argument check: every supplied key names a constructor
parameter (`TypeError` otherwise). -/
def keysOk (args : List (String × String)) (allowed : List String) : Bool :=
  args.all (fun kv => allowed.contains kv.1)

/-- `TexCompileAction.__init__`'s command construction (after lowering
`engine` and `output_format`); `none` models the raised `Exception` for an
unsupported combination. -/
def texCompileCommand (path engine : String) (latex : Bool) (fmt : String) :
    Option String :=
  if engine = "luajittex" then
    let cmd := "luajittex --fmt=" ++ (if latex then "lualatex" else "luatex")
      ++ " --jiton --file-line-error --interaction=nonstopmode"
    if fmt = "dvi" ∨ fmt = "pdf" then
      some (cmd ++ " --output-format=" ++ fmt ++ " " ++ path)
    else none
  else if engine = "luatex" then
    let cmd := (if latex then "lualatex" else "luatex")
      ++ " --file-line-error --interaction=nonstopmode"
    if fmt = "dvi" ∨ fmt = "pdf" then
      some (cmd ++ " --output-format=" ++ fmt ++ " " ++ path)
    else none
  else if engine = "xetex" then
    let cmd := (if latex then "xelatex" else "xetex")
      ++ " -file-line-error -interaction=batchmode"
    if fmt = "pdf" then some (cmd ++ " " ++ path)
    else if fmt = "xdv" then some (cmd ++ " -no-pdf" ++ " " ++ path)
    else none
  else if engine = "pdftex" then
    if fmt = "pdf" ∨ fmt = "dvi" then
      some ((if fmt = "pdf" then "pdf" else "") ++ (if latex then "latex" else "tex")
        ++ " -file-line-error -interaction=batchmode" ++ " " ++ path)
    else none
  else none

/-- `actiontype(**args)` for the three shipped subtypes.  `TexBibAction`
and `TexCompileAction` fix their ignore lists; `TexIndexAction` passes a
single command through `CommandAction` (ignores default `[]`).  A string
`latex` argument is interpreted by Python truthiness. -/
def mkAction (rtype : String) (args : List (String × String)) : Option ActSpec :=
  if rtype = "TexBibAction" then
    if keysOk args ["path"] then
      match args.lookup "path" with
      | some path => some ⟨"biber " ++ path, ["\\.blg$", "\\.utf8$"]⟩
      | none => none
    else none
  else if rtype = "TexCompileAction" then
    if keysOk args ["path", "engine", "latex", "output_format"] then
      match args.lookup "path" with
      | none => none
      | some path =>
        let engine := lowerStr ((args.lookup "engine").getD "luajittex")
        let latex := match args.lookup "latex" with
          | none => true
          | some s => !(s == "")
        let fmt := lowerStr ((args.lookup "output_format").getD "pdf")
        (texCompileCommand path engine latex fmt).map
          (fun cmd => ⟨cmd, ["\\.log$", "\\.pdf$"]⟩)
    else none
  else if rtype = "TexIndexAction" then
    if keysOk args ["path", "out", "style"] then
      match args.lookup "path", args.lookup "out", args.lookup "style" with
      | some path, some out, some style =>
        some ⟨"makeindex -q -s " ++ style ++ " -o " ++ out ++ " " ++ path, []⟩
      | _, _, _ => none
    else none
  else none

/-- The placeholder substitution of `detect_actions` applied to one
argument value (see the `Subst` section). -/
def applySubst (path : String) (value : String) : String :=
  (Subst.substForPath path.data value.data).asString

/-- The argument dict constructed for one rule: the contents of
`cmd['args'].copy()` (or `{}`) with every value substituted. -/
def stepArgs (path : String) (er : String × Rule) (store : ArgStore) :
    List (String × String) :=
  let contents : List (String × String) :=
    match er.2.argsRef with
    | some r => store.cells r
    | none => []
  contents.map (fun kv => (kv.1, applySubst path kv.2))

/-- The store after one rule: the `.copy()` allocates a fresh cell, and the
substitution loop's writes land there; allocated cells are untouched. -/
def stepStore (path : String) (er : String × Rule) (store : ArgStore) : ArgStore :=
  ⟨fun i => if i = store.next then stepArgs path er store else store.cells i,
   store.next + 1⟩

/-- The `for cmd in commands_filtered` loop: copy the rule's argument dict
into a fresh cell, substitute (writing only the fresh cell), and construct
the action. -/
def detectLoop (path : String) :
    List (String × Rule) → ArgStore → List (Option ActSpec) × ArgStore
  | [], store => ([], store)
  | er :: rest, store =>
    let rec2 := detectLoop path rest (stepStore path er store)
    (mkAction er.2.rtype (stepArgs path er store) :: rec2.1, rec2.2)

/-- `detect_actions(path, auto_only)`: filter the rule table by the `auto`
flag and the path pattern (`research` abstracts `re.search`), then run the
construction loop. -/
def detectActions (research : String → String → Bool)
    (commandMap : List (String × Rule)) (path : String) (auto_only : Bool)
    (store : ArgStore) : List (Option ActSpec) × ArgStore :=
  detectLoop path
    (commandMap.filter (fun er =>
      (!auto_only || (er.2.auto == some true)) && research er.1 path))
    store

/-- The loop only allocates: the high-water mark never decreases. -/
theorem detectLoop_next_le (path : String) :
    ∀ (rules : List (String × Rule)) (store : ArgStore),
    store.next ≤ (detectLoop path rules store).2.next := by
  intro rules
  induction rules with
  | nil => intro store; exact Nat.le_refl _
  | cons er rest ih =>
    intro store
    show store.next ≤ (detectLoop path rest (stepStore path er store)).2.next
    exact Nat.le_trans (Nat.le_succ store.next) (ih (stepStore path er store))

/-- The loop never writes an already-allocated cell. -/
theorem detectLoop_frame (path : String) :
    ∀ (rules : List (String × Rule)) (store : ArgStore) (r : Nat),
    r < store.next → (detectLoop path rules store).2.cells r = store.cells r := by
  intro rules
  induction rules with
  | nil => intro store r _; rfl
  | cons er rest ih =>
    intro store r hr
    show (detectLoop path rest (stepStore path er store)).2.cells r = store.cells r
    rw [ih (stepStore path er store) r (Nat.lt_succ_of_lt hr)]
    show (if r = store.next then stepArgs path er store else store.cells r)
      = store.cells r
    rw [if_neg (Nat.ne_of_lt hr)]

/-- Two stores agreeing on every referenced cell drive the loop to the same
action list. -/
theorem detectLoop_congr (path : String) :
    ∀ (rules : List (String × Rule)) (s1 s2 : ArgStore),
    (∀ er ∈ rules, ∀ r, er.2.argsRef = some r →
      r < s1.next ∧ r < s2.next ∧ s2.cells r = s1.cells r) →
    (detectLoop path rules s2).1 = (detectLoop path rules s1).1 := by
  intro rules
  induction rules with
  | nil => intro s1 s2 _; rfl
  | cons er rest ih =>
    intro s1 s2 hagree
    have hhead : stepArgs path er s2 = stepArgs path er s1 := by
      cases h : er.2.argsRef with
      | none => simp [stepArgs, h]
      | some r =>
        simp [stepArgs, h, (hagree er (List.mem_cons_self er rest) r h).2.2]
    show mkAction er.2.rtype (stepArgs path er s2)
        :: (detectLoop path rest (stepStore path er s2)).1
      = mkAction er.2.rtype (stepArgs path er s1)
        :: (detectLoop path rest (stepStore path er s1)).1
    rw [hhead]
    congr 1
    apply ih
    intro er2 her2 r hr
    obtain ⟨h1, h2, h3⟩ := hagree er2 (List.mem_cons_of_mem er her2) r hr
    refine ⟨Nat.lt_succ_of_lt h1, Nat.lt_succ_of_lt h2, ?_⟩
    show (if r = s2.next then stepArgs path er s2 else s2.cells r)
      = (if r = s1.next then stepArgs path er s1 else s1.cells r)
    rw [if_neg (Nat.ne_of_lt h2), if_neg (Nat.ne_of_lt h1), h3]

/-- C10: `detect_actions` leaves the rule table unchanged — every argument
template cell the `command_map` references reads back identically after the
call, because substitution operates on a `.copy()` in a fresh cell — and a
second call on the post-call store returns the same action list, hence
command nodes with equal command strings. -/
theorem detectActions_frame (research : String → String → Bool)
    (commandMap : List (String × Rule)) (path : String) (auto_only : Bool)
    (store : ArgStore)
    (hwf : ∀ er ∈ commandMap, ∀ r, er.2.argsRef = some r → r < store.next) :
    (∀ r, r < store.next →
      ((detectActions research commandMap path auto_only store).2).cells r
        = store.cells r)
    ∧ (detectActions research commandMap path auto_only
        ((detectActions research commandMap path auto_only store).2)).1
      = (detectActions research commandMap path auto_only store).1 := by
  constructor
  · intro r hr
    exact detectLoop_frame path _ store r hr
  · apply detectLoop_congr
    intro er her r hr
    have hmem : er ∈ commandMap := List.mem_of_mem_filter her
    have h1 : r < store.next := hwf er hmem r hr
    refine ⟨h1, Nat.lt_of_lt_of_le h1 (detectLoop_next_le path _ store), ?_⟩
    exact detectLoop_frame path _ store r h1

/-- The store for the witness: one allocated template dict. -/
def witnessStore : ArgStore :=
  ⟨fun i => if i = 0 then [("path", "?p")] else [], 1⟩

/-- The rule table for the witness: one auto rule constructing a
`TexBibAction` from the template. -/
def witnessMap : List (String × Rule) :=
  [("\\.bcf", ⟨"TexBibAction", some 0, some true⟩)]

/-- Witness for C10 at a concrete table and path: the template cell is
unchanged by the call and the second run reproduces the action list. -/
theorem detectActions_frame_witness :
    ((detectActions (fun _ _ => true) witnessMap "doc.bcf" true witnessStore).2).cells 0
      = witnessStore.cells 0
    ∧ (detectActions (fun _ _ => true) witnessMap "doc.bcf" true
        ((detectActions (fun _ _ => true) witnessMap "doc.bcf" true witnessStore).2)).1
      = (detectActions (fun _ _ => true) witnessMap "doc.bcf" true witnessStore).1 := by
  have hwf : ∀ er ∈ witnessMap, ∀ r, er.2.argsRef = some r → r < witnessStore.next := by
    intro er her r hr
    rcases List.mem_singleton.mp her with rfl
    cases hr
    decide
  have h := detectActions_frame (fun _ _ => true) witnessMap "doc.bcf" true witnessStore hwf
  exact ⟨h.1 0 (by decide), h.2⟩

end Rules
